import Mathlib

/-!
Shallow embedding of the ELF relocator core of the armips repository
(src/Core/ELF/ElfRelocator.cpp and src/Util/Util.cpp), together with
theorems settling the specification claims about it.

Strings are modelled as lists of natural numbers: a narrow C++ string is a
list of byte values, a wide string a list of wide-character code points.
Byte buffers (the ByteArray class) are lists of byte values.  Addresses and
sizes are natural numbers; the concrete scenarios of the claims stay far
below any 32-bit overflow, and where C++ arithmetic is not total (the
integer division hidden in the align-up loops) the embedding returns
Option, with none marking the division-by-zero branch.
-/

namespace Armips

/-- Constant from the ELF specification: section type SHT_PROGBITS. -/
def SHT_PROGBITS : Nat := 1

/-- Constant from the ELF specification: section type SHT_NOBITS. -/
def SHT_NOBITS : Nat := 8

/-- Constant from the ELF specification: pseudo section index SHN_ABS. -/
def SHN_ABS : Nat := 0xFFF1

/-- Constant from the ELF specification: pseudo section index SHN_COMMON. -/
def SHN_COMMON : Nat := 0xFFF2

/-- Constant from the ELF specification: symbol type STT_NOTYPE. -/
def STT_NOTYPE : Nat := 0

/-- Constant from the ELF specification: symbol type STT_OBJECT. -/
def STT_OBJECT : Nat := 1

/-- Constant from the ELF specification: symbol type STT_FUNC. -/
def STT_FUNC : Nat := 2

/-!  Character-set helpers (src/Util/Util.cpp and the static copy in
src/Core/ELF/ElfRelocator.cpp). -/

/-- Behaviour of the C library function tolower in the C locale on a byte
value: the letters A..Z (65..90) map to a..z, every other value is returned
unchanged. -/
def c_tolower (c : Nat) : Nat :=
  if 65 ≤ c ∧ c ≤ 90 then c + 32 else c

/-- Embedding of toWLowercase (ElfRelocator.cpp lines 25-34, identical copy
in Util.cpp lines 155-164): appends tolower of every byte of the narrow
string into a wide string. -/
def toWLowercase (str : List Nat) : List Nat :=
  str.map c_tolower

/-- Test whether a wide character is one of the path separators of the
wstring literal L"/\\" searched by find_last_of. -/
def isPathSep (c : Nat) : Bool :=
  c = 47 || c = 92

/-- Helper for find_last_of: index of the last path separator, scanning the
string left to right and keeping the latest hit. -/
def findLastSepAux : List Nat → Nat → Option Nat → Option Nat
  | [], _, acc => acc
  | c :: rest, i, acc =>
      findLastSepAux rest (i + 1) (if isPathSep c then some i else acc)

/-- Embedding of path.find_last_of(L"/\\"): the index of the last '/' or
'\' in the path, if any. -/
def findLastSep (path : List Nat) : Option Nat :=
  findLastSepAux path 0 none

/-- Embedding of getFileNameFromPath (ElfRelocator.cpp lines 36-42,
identical copy in Util.cpp lines 166-172): if the path has no separator it
is returned whole, otherwise path.substr(n) is returned where n is the
index of the last separator, so the separator itself is kept. -/
def getFileNameFromPath (path : List Nat) : List Nat :=
  match findLastSep path with
  | none => path
  | some n => path.drop n

/-!  Archive reader (ElfRelocator.cpp lines 8-110). -/

/-- Embedding of struct ArFileEntry: a decoded archive member, name as a
wide string and the raw bytes of the member. -/
structure ArFileEntry where
  name : List Nat
  data : List Nat
deriving DecidableEq

/-- The 8 bytes of the ar magic "!<arch>\n". -/
def arMagic : List Nat := [33, 60, 97, 114, 99, 104, 62, 10]

/-- The 4 bytes of the ELF magic 0x7F 'E' 'L' 'F'. -/
def elfMagic : List Nat := [0x7F, 69, 76, 70]

/-- Embedding of the file-size parse of loadArArchive (lines 68-76): the
ten ASCII bytes of the header size field, read as a decimal number up to
the first space. -/
def arSizeAux : List Nat → Nat → Nat
  | [], size => size
  | b :: rest, size =>
      if b = 32 then size else arSizeAux rest (size * 10 + (b - 48))

/-- Embedding of the file-name extraction of loadArArchive (lines 82-96):
copy the sixteen name bytes up to the first space, dropping one trailing
slash right before that space; without a space all sixteen bytes are
kept. -/
def arNameAux : List Nat → List Nat → List Nat
  | [], acc => acc.reverse
  | b :: rest, acc =>
      if b = 32 then
        match acc with
        | c :: acc2 => if c = 47 then acc2.reverse else acc.reverse
        | [] => []
      else arNameAux rest (b :: acc)

/-- Embedding of convertUtf8ToWString (Util.cpp lines 5-45) specialised to
a byte list: decode UTF-8 one code point at a time; a malformed byte
sequence yields the empty wide string. -/
def convertUtf8Aux : List Nat → List Nat → List Nat
  | [], result => result.reverse
  | b :: rest, result =>
      if b &&& 0xE0 = 0xC0 then
        match rest with
        | b1 :: rest1 =>
            if b1 &&& 0xC0 = 0x80 then
              convertUtf8Aux rest1 ((((b &&& 0x1F) <<< 6) ||| (b1 &&& 0x3F)) :: result)
            else []
        | [] => []
      else if b &&& 0xF0 = 0xE0 then
        match rest with
        | b1 :: b2 :: rest2 =>
            if b1 &&& 0xC0 = 0x80 && b2 &&& 0xC0 = 0x80 then
              convertUtf8Aux rest2
                (((((b &&& 0x0F) <<< 12) ||| ((b1 &&& 0x3F) <<< 6)) ||| (b2 &&& 0x3F)) :: result)
            else []
        | _ => []
      else if b > 0x7F then []
      else convertUtf8Aux rest (b :: result)

/-- Embedding of convertUtf8ToWString on the extracted archive member
name. -/
def convertUtf8ToWString (source : List Nat) : List Nat :=
  convertUtf8Aux source []

/-- Embedding of the archive member loop of loadArArchive (lines 61-107):
fuel-driven recursion standing in for the while loop over pos; each step
reads the 60-byte header, parses the size, keeps the member when its body
starts with the ELF magic, and advances to the next even offset.  The fuel
is an upper bound on the number of iterations; input.length suffices. -/
def arLoop (input : List Nat) : Nat → Nat → List ArFileEntry → List ArFileEntry
  | 0, _, result => result.reverse
  | fuel + 1, pos, result =>
      if pos < input.length then
        let header := (input.drop pos).take 60
        let pos1 := pos + 60
        let size := arSizeAux (header.drop 48 |>.take 10) 0
        let result1 :=
          if (input.drop pos1).take 4 = elfMagic then
            let fileName := arNameAux (header.take 16) []
            { name := convertUtf8ToWString fileName,
              data := (input.drop pos1).take size } :: result
          else result
        let pos2 := pos1 + size
        arLoop input fuel (if pos2 % 2 = 1 then pos2 + 1 else pos2) result1
      else result.reverse

/-- Embedding of loadArArchive (ElfRelocator.cpp lines 44-110), taking the
already-read file contents and the input path: a file that does not start
with the ar magic is returned as a single entry when it starts with the
ELF magic (name from getFileNameFromPath) and as no entry otherwise; an ar
file is decoded member by member. -/
def loadArArchive (input : List Nat) (inputName : List Nat) : List ArFileEntry :=
  if input.take 8 = arMagic then
    arLoop input input.length 8 []
  else if input.take 4 = elfMagic then
    [{ name := getFileNameFromPath inputName, data := input }]
  else
    []

/-!  Data model of the relocator core (ElfRelocator.h as used by
ElfRelocator.cpp): sections, symbols, relocation entries, the architecture
hook and the shared symbol table. -/

/-- Embedding of the per-section data the relocator reads from ElfSection:
sh_type, sh_addralign, sh_size and the raw bytes returned by getData. -/
structure ElfSection where
  sectionType : Nat
  alignment : Nat
  size : Nat
  data : List Nat
deriving DecidableEq

/-- Embedding of Elf32_Rel: raw offset and info words; the symbol number
and relocation type are carved out of info. -/
structure Elf32_Rel where
  r_offset : Nat
  r_info : Nat
deriving DecidableEq

/-- Embedding of Elf32_Rel::getSymbolNum: the upper 24 bits of r_info. -/
def Elf32_Rel.getSymbolNum (r : Elf32_Rel) : Nat :=
  r.r_info >>> 8

/-- Embedding of Elf32_Rel::getType: the low byte of r_info. -/
def Elf32_Rel.getType (r : Elf32_Rel) : Nat :=
  r.r_info &&& 0xFF

/-- Embedding of Elf32_Sym: the fields of an ELF-32 symbol table entry
that the relocator reads. -/
structure Elf32_Sym where
  st_name : Nat
  st_value : Nat
  st_size : Nat
  st_info : Nat
  st_shndx : Nat
deriving DecidableEq

/-- Embedding of the part of ElfFile the relocator uses at relocation
time: the symbol table and the string table (getStrTableString as a
function from a name index to the byte string stored there). -/
structure ElfFile where
  symbols : List Elf32_Sym
  strTab : Nat → List Nat

/-- Embedding of ElfFile::getSymbol; indexing past the table is undefined
behaviour in the source and is modelled by a zero symbol. -/
def ElfFile.getSymbol (elf : ElfFile) (index : Nat) : Elf32_Sym :=
  (elf.symbols.get? index).getD { st_name := 0, st_value := 0, st_size := 0, st_info := 0, st_shndx := 0 }

/-- Embedding of ElfRelocatorSection: a loadable section together with its
section-table index and the attached SHT_REL section, the latter already
decoded into its list of Elf32_Rel records. -/
structure ElfRelocatorSection where
  sec : ElfSection
  index : Nat
  relSection : Option (List Elf32_Rel)
deriving DecidableEq

/-- Embedding of ElfRelocatorSymbol.  The label pointer is modelled by a
flag: hasLabel is false exactly when the label pointer is NULL; a set
label is identified by the symbol name it was created under. -/
structure ElfRelocatorSymbol where
  name : List Nat
  relativeAddress : Nat
  sectionIndex : Nat
  size : Nat
  symType : Nat
  hasLabel : Bool
  relocatedAddress : Nat
deriving DecidableEq

/-- Embedding of ElfRelocatorFile: one loaded object file. -/
structure ElfRelocatorFile where
  elf : ElfFile
  sections : List ElfRelocatorSection
  symbols : List ElfRelocatorSymbol

/-- Embedding of a Label of the shared symbol table as the relocator sees
it: defined flag, value, the data-vs-function classification and the info
bits. -/
structure Label where
  defined : Bool
  value : Nat
  isData : Bool
  info : Nat
deriving DecidableEq

/-- The shared symbol table, as a map from a (lowercased) name to a label;
none models getLabel returning NULL for an invalid label name, while a
valid but never-defined name yields a label with defined = false. -/
def Env : Type := List Nat → Option Label

/-- Embedding of Label::setValue through the table: rewrite the value of
the label stored under the given name, leaving everything else alone. -/
def envSetValue (env : Env) (name : List Nat) (v : Nat) : Env :=
  fun n => if n = name then (env n).map (fun l => { l with value := v }) else env n

/-- Embedding of RelocationData: the record passed between the core and
the architecture hook. -/
structure RelocationData where
  opcode : Nat
  opcodeOffset : Nat
  relocationBase : Nat
  symbolAddress : Nat
  targetSymbolType : Nat
  targetSymbolInfo : Nat
deriving DecidableEq

/-- Embedding of the architecture hook (IElfRelocator): setSymbolAddress
normalizes a symbol value and fills the target symbol type and info;
relocateOpcode patches the opcode, returning none on failure. -/
structure Hook where
  setSymbolAddress : RelocationData → Nat → Nat → RelocationData
  relocateOpcode : Nat → RelocationData → Option RelocationData

/-- Diagnostic level of a queued message (Logger::Warning and
Logger::Error are the two levels the relocator uses). -/
inductive Level where
  | warningLv
  | errorLv
deriving DecidableEq

/-- The diagnostics the relocator queues during a pass, by kind and
payload. -/
inductive ErrMsg where
  | invalidSymbolNum (num : Nat)
  | invalidExternalSymbol (name : List Nat)
  | undefinedExternalSymbol (name : List Nat)
  | relocationFailed
deriving DecidableEq

/-!  Small container helpers: std::map<int,int> (association list with the
operator[] default of zero) and the ByteArray word accessors. -/

/-- Read of std::map<int,int>::operator[]: the stored value, or the
value-initialized 0 for a missing key. -/
def mapGet (m : List (Nat × Nat)) (k : Nat) : Nat :=
  match m.find? (fun p => p.1 = k) with
  | some p => p.2
  | none => 0

/-- Write of std::map<int,int>::operator[]: replace the value under an
existing key, or add the pair. -/
def mapSet : List (Nat × Nat) → Nat → Nat → List (Nat × Nat)
  | [], k, v => [(k, v)]
  | p :: rest, k, v => if p.1 = k then (k, v) :: rest else p :: mapSet rest k v

/-- Embedding of ByteArray::getDoubleWord: little-endian 32-bit read at a
byte position. -/
def getDoubleWord (d : List Nat) (pos : Nat) : Nat :=
  d.getD pos 0 + d.getD (pos + 1) 0 * 0x100 + d.getD (pos + 2) 0 * 0x10000
    + d.getD (pos + 3) 0 * 0x1000000

/-- Embedding of ByteArray::replaceDoubleWord: little-endian 32-bit write
at a byte position. -/
def replaceDoubleWord (d : List Nat) (pos v : Nat) : List Nat :=
  ((((d.set pos (v % 0x100)).set (pos + 1) (v / 0x100 % 0x100)).set
    (pos + 2) (v / 0x10000 % 0x100)).set (pos + 3) (v / 0x1000000 % 0x100))

/-- Embedding of the memcpy into outputData (line 358): overwrite the
bytes of out starting at pos with src. -/
def memcpyAt (out : List Nat) (pos : Nat) (src : List Nat) : List Nat :=
  out.take pos ++ src ++ out.drop (pos + src.length)

/-!  The align-up loops.  The source advances an address one step at a
time while address mod alignment is nonzero; with a zero alignment the
very first modulo is an integer division by zero, which is undefined
behaviour, modelled as none. -/

/-- Fuelled form of the loop `while (addr % align) addr++`; the fuel is an
upper bound on the number of increments, and align steps always
suffice. -/
def alignUpGo : Nat → Nat → Nat → Nat
  | 0, addr, _ => addr
  | fuel + 1, addr, align => if addr % align = 0 then addr else alignUpGo fuel (addr + 1) align

/-- Embedding of the align-up loop: none when the alignment is zero (the
modulo of the loop condition divides by zero), otherwise the first address
at or after addr that is a multiple of align. -/
def alignUp (addr align : Nat) : Option Nat :=
  if align = 0 then none else some (alignUpGo align addr align)

/-!  ElfRelocator::relocateFile (lines 253-396), split into its three
phases, and ElfRelocator::relocate (lines 398-419). -/

/-- Phase A of relocateFile (lines 259-273): walk the loadable sections in
order, align the running address up to each section's alignment, record
the section's address under its index and advance by its size. -/
def placeSections : List ElfRelocatorSection → List (Nat × Nat) → Nat →
    Option (List (Nat × Nat) × Nat)
  | [], offsets, addr => some (offsets, addr)
  | entry :: rest, offsets, addr =>
      match alignUp addr entry.sec.alignment with
      | none => none
      | some a => placeSections rest (mapSet offsets entry.index a) (a + entry.sec.size)

/-- State threaded through the relocation-entry loop of Phase B: the
working copy of the section bytes, the queued diagnostics and the error
flag of relocateFile. -/
structure RelState where
  data : List Nat
  msgs : List (Level × ErrMsg)
  error : Bool
deriving DecidableEq

/-- The RelocationData prepared for one relocation entry before the extern
check (lines 315-318): current opcode word, its final offset, and the
result of the hook's setSymbolAddress for the referenced symbol. -/
def mkRelData (hook : Hook) (elf : ElfFile) (offsets : List (Nat × Nat)) (index : Nat)
    (data : List Nat) (rel : Elf32_Rel) : RelocationData :=
  let sym := elf.getSymbol rel.getSymbolNum
  hook.setSymbolAddress
    { opcode := getDoubleWord data rel.r_offset,
      opcodeOffset := rel.r_offset + mapGet offsets index,
      relocationBase := 0, symbolAddress := 0,
      targetSymbolType := 0, targetSymbolInfo := 0 }
    sym.st_value (sym.st_info &&& 0xF)

/-- Tail of the relocation-entry body (lines 346-353): run the hook's
relocateOpcode; on failure queue the error and leave the data unpatched,
on success write the patched opcode word back. -/
def applyOpcode (hook : Hook) (relType : Nat) (rd : RelocationData) (pos : Nat)
    (st : RelState) : RelState :=
  match hook.relocateOpcode relType rd with
  | none => { st with msgs := st.msgs ++ [(Level.errorLv, ErrMsg.relocationFailed)], error := true }
  | some rd2 => { st with data := replaceDoubleWord st.data pos rd2.opcode }

/-- Body of the relocation-entry loop of Phase B (lines 300-354): skip and
warn on symbol number 0, resolve an external symbol through the shared
symbol table, otherwise take the placed section offset as relocation base,
then apply the opcode patch. -/
def processRelEntry (hook : Hook) (elf : ElfFile) (env : Env) (offsets : List (Nat × Nat))
    (index : Nat) (st : RelState) (rel : Elf32_Rel) : RelState :=
  let pos := rel.r_offset
  let symNum := rel.getSymbolNum
  if symNum = 0 then
    { st with
      msgs := st.msgs ++ [(Level.warningLv, ErrMsg.invalidSymbolNum symNum)],
      error := true }
  else
    let sym := elf.getSymbol symNum
    let relData := mkRelData hook elf offsets index st.data rel
    if relData.targetSymbolType = STT_NOTYPE ∧ sym.st_shndx = 0 then
      let symName := toWLowercase (elf.strTab sym.st_name)
      match env symName with
      | none =>
          { st with
            msgs := st.msgs ++ [(Level.errorLv, ErrMsg.invalidExternalSymbol symName)],
            error := true }
      | some label =>
          if label.defined = false then
            { st with
              msgs := st.msgs ++ [(Level.errorLv, ErrMsg.undefinedExternalSymbol symName)],
              error := true }
          else
            applyOpcode hook rel.getType
              { relData with
                relocationBase := label.value,
                targetSymbolType := if label.isData then STT_OBJECT else STT_FUNC,
                targetSymbolInfo := label.info } pos st
    else
      applyOpcode hook rel.getType
        { relData with relocationBase := mapGet offsets sym.st_shndx + relData.symbolAddress }
        pos st

/-- Body of the section loop of Phase B (lines 280-359): NOBITS sections
are left as the zero bytes of the reservation; for the rest the section
bytes are copied, every relocation entry of the attached REL section is
processed, and the working buffer is copied into outputData at the
section's placed position. -/
def loadSection (hook : Hook) (elf : ElfFile) (env : Env) (offsets : List (Nat × Nat))
    (dataStart start : Nat) (acc : List Nat × List (Level × ErrMsg) × Bool)
    (entry : ElfRelocatorSection) : List Nat × List (Level × ErrMsg) × Bool :=
  let (outputData, msgs, error) := acc
  if entry.sec.sectionType = SHT_NOBITS then
    (outputData, msgs, error)
  else
    let st0 : RelState := { data := entry.sec.data, msgs := msgs, error := error }
    let st :=
      match entry.relSection with
      | none => st0
      | some rels => rels.foldl (processRelEntry hook elf env offsets entry.index) st0
    let arrayStart := dataStart + mapGet offsets entry.index - start
    (memcpyAt outputData arrayStart st.data, st.msgs, st.error)

/-- State threaded through Phase C: the running address, the output image,
the shared symbol table and the dataChanged flag. -/
structure SymState where
  addr : Nat
  outputData : List Nat
  env : Env
  dataChanged : Bool

/-- The switch on the symbol's section index in Phase C (lines 366-386):
the new relocated address together with the state change of the SHN_COMMON
allocation (address advanced past the aligned block, outputData
zero-extended by the reserved amount); none is the division by zero of the
align-up loop when a SHN_COMMON symbol carries alignment 0. -/
def symbolNewState (offsets : List (Nat × Nat)) (sym : ElfRelocatorSymbol) (st : SymState) :
    Option (Nat × SymState) :=
  if sym.sectionIndex = SHN_ABS then
    some (sym.relativeAddress, st)
  else if sym.sectionIndex = SHN_COMMON then
    match alignUp st.addr sym.relativeAddress with
    | none => none
    | some a =>
        some (a, { st with
          addr := a + sym.size,
          outputData := st.outputData ++ List.replicate (a + sym.size - st.addr) 0 })
  else
    some (sym.relativeAddress + mapGet offsets sym.sectionIndex, st)

/-- The tail of the Phase C loop body (lines 388-392): write the new
address into the attached label if any, and raise dataChanged when the
address moved. -/
def symbolCommit (sym : ElfRelocatorSymbol) (newAddress : Nat) (st1 : SymState) : SymState :=
  { st1 with
    env := if sym.hasLabel then envSetValue st1.env sym.name newAddress else st1.env,
    dataChanged := st1.dataChanged || decide (sym.relocatedAddress ≠ newAddress) }

/-- Phase C of relocateFile (lines 362-393): assign every retained symbol
its relocated address (literal for SHN_ABS, freshly allocated with the
relativeAddress as alignment for SHN_COMMON, section offset plus
relativeAddress otherwise), push the value into the attached label, and
raise dataChanged whenever an address moved. -/
def updateSymbols (offsets : List (Nat × Nat)) :
    List ElfRelocatorSymbol → SymState → Option (List ElfRelocatorSymbol × SymState)
  | [], st => some ([], st)
  | sym :: rest, st =>
      match symbolNewState offsets sym st with
      | none => none
      | some (newAddress, st1) =>
          match updateSymbols offsets rest (symbolCommit sym newAddress st1) with
          | none => none
          | some (rest2, st3) => some ({ sym with relocatedAddress := newAddress } :: rest2, st3)

/-- Result of relocateFile: the file with its updated symbols, the new
address, output image, symbol table, diagnostics, dataChanged flag and the
boolean return value of the function. -/
structure FileResult where
  file : ElfRelocatorFile
  addr : Nat
  outputData : List Nat
  env : Env
  msgs : List (Level × ErrMsg)
  dataChanged : Bool
  success : Bool

/-- Embedding of ElfRelocator::relocateFile (lines 253-396): place the
sections, zero-extend outputData by the consumed space, copy and patch
every section, then update the symbols; none marks the undefined
division-by-zero behaviour of an align-up with a zero divisor. -/
def relocateFile (hook : Hook) (file : ElfRelocatorFile) (relocationAddress : Nat)
    (outputData : List Nat) (env : Env) (msgs : List (Level × ErrMsg))
    (dataChanged : Bool) : Option FileResult :=
  let start := relocationAddress
  match placeSections file.sections [] relocationAddress with
  | none => none
  | some (offsets, addr1) =>
      let dataStart := outputData.length
      let out1 := outputData ++ List.replicate (addr1 - start) 0
      let phaseB :=
        file.sections.foldl (loadSection hook file.elf env offsets dataStart start)
          (out1, msgs, false)
      match updateSymbols offsets file.symbols
          { addr := addr1, outputData := phaseB.1, env := env, dataChanged := dataChanged } with
      | none => none
      | some (syms2, st) =>
          some { file := { file with symbols := syms2 }, addr := st.addr,
                 outputData := st.outputData, env := st.env, msgs := phaseB.2.1,
                 dataChanged := st.dataChanged, success := !phaseB.2.2 }

/-- Result of the loop over the loaded files inside relocate: the updated
files and the threaded state. -/
structure FilesResult where
  files : List ElfRelocatorFile
  addr : Nat
  outputData : List Nat
  env : Env
  msgs : List (Level × ErrMsg)
  dataChanged : Bool
  error : Bool

/-- The file loop of ElfRelocator::relocate (lines 407-411): run
relocateFile over every file in input order, accumulating the error
flag. -/
def relocateFiles (hook : Hook) :
    List ElfRelocatorFile → Nat → List Nat → Env → List (Level × ErrMsg) → Bool → Bool →
    Option FilesResult
  | [], addr, out, env, msgs, dc, err =>
      some { files := [], addr := addr, outputData := out, env := env, msgs := msgs,
             dataChanged := dc, error := err }
  | file :: rest, addr, out, env, msgs, dc, err =>
      match relocateFile hook file addr out env msgs dc with
      | none => none
      | some r =>
          match relocateFiles hook rest r.addr r.outputData r.env r.msgs r.dataChanged
              (err || !r.success) with
          | none => none
          | some res => some { res with files := r.file :: res.files }

/-- Result of one relocate pass; memoryAddress is the delta written back
into the caller's variable. -/
structure RelocateResult where
  files : List ElfRelocatorFile
  memoryAddress : Nat
  outputData : List Nat
  env : Env
  msgs : List (Level × ErrMsg)
  dataChanged : Bool
  success : Bool

/-- Embedding of ElfRelocator::relocate (lines 398-419), parameterized by
the digest used for the convergence check (getCrc32 lives outside the
relocator core; the spec treats it as an opaque equality check over the
buffer).  The prior outputData is snapshotted through the digest, the
buffer is cleared, every file is relocated, a digest change raises
dataChanged, and the caller's memoryAddress becomes the consumed delta. -/
def relocate (hook : Hook) (crc : List Nat → Nat) (files : List ElfRelocatorFile)
    (prevOutput : List Nat) (env : Env) (memoryAddress : Nat) : Option RelocateResult :=
  let oldCrc := crc prevOutput
  let start := memoryAddress
  match relocateFiles hook files memoryAddress [] env [] false false with
  | none => none
  | some res =>
      let newCrc := crc res.outputData
      some { files := res.files, memoryAddress := res.addr - start,
             outputData := res.outputData, env := res.env, msgs := res.msgs,
             dataChanged := res.dataChanged || decide (oldCrc ≠ newCrc),
             success := !res.error }

/-!  Concrete values used by the test scenarios of the specification. -/

/-- A minimal architecture hook for the concrete scenarios: the symbol
address is taken verbatim, the target symbol type is the ELF symbol type,
and every relocation succeeds leaving the opcode unchanged. -/
def idHook : Hook :=
  { setSymbolAddress := fun rd a t =>
      { rd with symbolAddress := a, targetSymbolType := t },
    relocateOpcode := fun _ rd => some rd }

/-- An eight-byte input file starting with the ELF magic. -/
def elfInput : List Nat := [0x7F, 69, 76, 70, 0, 0, 0, 0]

/-- The path dir/foo.o as a wide string. -/
def pathDirFoo : List Nat := [100, 105, 114, 47, 102, 111, 111, 46, 111]

/-- First section of the alignment-placement scenario: alignment 4,
size 5. -/
def exSection1 : ElfRelocatorSection :=
  { sec := { sectionType := SHT_PROGBITS, alignment := 4, size := 5, data := [1, 2, 3, 4, 5] },
    index := 0, relSection := none }

/-- Second section of the alignment-placement scenario: alignment 16,
size 3. -/
def exSection2 : ElfRelocatorSection :=
  { sec := { sectionType := SHT_PROGBITS, alignment := 16, size := 3, data := [6, 7, 8] },
    index := 1, relSection := none }

/-- The OBJECT symbol of the SHN_COMMON scenario: alignment requirement 8
in relativeAddress, size 16. -/
def exCommonSym : ElfRelocatorSymbol :=
  { name := [99], relativeAddress := 8, sectionIndex := SHN_COMMON, size := 16,
    symType := STT_OBJECT, hasLabel := false, relocatedAddress := 0 }

/-- An all-zero ELF symbol table entry. -/
def zeroSym : Elf32_Sym :=
  { st_name := 0, st_value := 0, st_size := 0, st_info := 0, st_shndx := 0 }

/-- An ELF file with no symbols. -/
def exElfEmpty : ElfFile := { symbols := [], strTab := fun _ => [] }

/-- An ELF file whose symbol 1 is an undefined NOTYPE external named
EXT. -/
def exElfExt : ElfFile :=
  { symbols := [zeroSym, zeroSym], strTab := fun _ => [69, 88, 84] }

/-- An ELF file whose symbol 1 is a FUNC symbol of section 5 at value
0x44. -/
def exElfLocal : ElfFile :=
  { symbols := [zeroSym,
      { st_name := 0, st_value := 0x44, st_size := 0, st_info := 2, st_shndx := 5 }],
    strTab := fun _ => [] }

/-- A symbol table knowing one defined label, ext, at 0x2000. -/
def exEnvExt : Env :=
  fun n => if n = [101, 120, 116] then
    some { defined := true, value := 0x2000, isData := false, info := 3 }
  else none

/-- An object file with one PROGBITS section (alignment 4, two bytes) and
one SHN_COMMON symbol (alignment 2, three bytes). -/
def exFile3 : ElfRelocatorFile :=
  { elf := exElfEmpty,
    sections := [{ sec := { sectionType := SHT_PROGBITS, alignment := 4, size := 2,
                            data := [170, 187] },
                   index := 1, relSection := none }],
    symbols := [{ name := [99], relativeAddress := 2, sectionIndex := SHN_COMMON,
                  size := 3, symType := STT_OBJECT, hasLabel := false,
                  relocatedAddress := 0 }] }

/-- An object file with a loadable section of alignment zero, reaching the
division-by-zero branch of the align-up loop. -/
def exFileBad : ElfRelocatorFile :=
  { elf := exElfEmpty,
    sections := [{ sec := { sectionType := SHT_PROGBITS, alignment := 0, size := 1,
                            data := [0] },
                   index := 0, relSection := none }],
    symbols := [] }

/-- An object file at a fixed point of relocation: one two-byte section at
index 0 and one labelled OBJECT symbol in it whose stored relocated
address already matches a placement starting at address 5. -/
def exFileC6 : ElfRelocatorFile :=
  { elf := exElfEmpty,
    sections := [{ sec := { sectionType := SHT_PROGBITS, alignment := 1, size := 2,
                            data := [7, 9] },
                   index := 0, relSection := none }],
    symbols := [{ name := [120], relativeAddress := 0, sectionIndex := 0, size := 1,
                  symType := STT_OBJECT, hasLabel := true, relocatedAddress := 5 }] }

/-- The symbol table matching exFileC6 at its fixed point: the label x
defined with value 5. -/
def exEnvC6 : Env :=
  fun n => if n = [120] then
    some { defined := true, value := 5, isData := true, info := 0 }
  else none

/-!  Lemmas about the align-up loop. -/

/-- The fuelled align-up loop computes the usual align-up closed form as
soon as the fuel covers the number of increments still needed. -/
theorem alignUpGo_eq (fuel addr align : Nat) (hal : align ≠ 0)
    (hfuel : (align - addr % align) % align ≤ fuel) :
    alignUpGo fuel addr align = addr + (align - addr % align) % align := by
  induction fuel generalizing addr with
  | zero =>
      have h0 : (align - addr % align) % align = 0 := Nat.le_zero.mp hfuel
      have hmod : addr % align = 0 := by
        rcases Nat.eq_zero_or_pos (addr % align) with h | h
        · exact h
        · exfalso
          have hlt : addr % align < align := Nat.mod_lt _ (Nat.pos_of_ne_zero hal)
          have : align - addr % align < align := by omega
          rw [Nat.mod_eq_of_lt this] at h0
          omega
      simp [alignUpGo, hmod, h0]
  | succ n ih =>
      by_cases hmod : addr % align = 0
      · simp [alignUpGo, hmod]
      · have hlt : addr % align < align := Nat.mod_lt _ (Nat.pos_of_ne_zero hal)
        have hrem : (align - addr % align) % align = align - addr % align := by
          apply Nat.mod_eq_of_lt; omega
        have hsucc : (addr + 1) % align = (addr % align + 1) % align := by
          conv_lhs => rw [Nat.add_mod]
          rcases Nat.eq_or_lt_of_le (Nat.one_le_iff_ne_zero.mpr hal) with h1 | h1
          · omega
          · rw [Nat.mod_eq_of_lt h1]
        rw [alignUpGo, if_neg hmod]
        by_cases hedge : addr % align + 1 = align
        · have hnext : (addr + 1) % align = 0 := by
            rw [hsucc, hedge, Nat.mod_self]
          rw [ih (addr + 1) (by rw [hnext]; simp)]
          rw [hnext, hrem]
          simp
          omega
        · have hnext : (addr + 1) % align = addr % align + 1 := by
            rw [hsucc]; apply Nat.mod_eq_of_lt; omega
          have hrem2 : (align - (addr + 1) % align) % align = align - (addr % align + 1) := by
            rw [hnext]; apply Nat.mod_eq_of_lt; omega
          rw [ih (addr + 1) (by rw [hrem2]; omega)]
          rw [hrem2, hrem]
          omega

/-- Closed form of alignUp for a nonzero alignment. -/
theorem alignUp_eq (addr align : Nat) (hal : align ≠ 0) :
    alignUp addr align = some (addr + (align - addr % align) % align) := by
  rw [alignUp, if_neg hal,
    alignUpGo_eq align addr align hal
      (Nat.le_of_lt (Nat.mod_lt _ (Nat.pos_of_ne_zero hal)))]

/-- The align-up loop terminates exactly when the alignment is nonzero. -/
theorem alignUp_isSome_iff (addr align : Nat) :
    (alignUp addr align).isSome ↔ align ≠ 0 := by
  by_cases hal : align = 0 <;> simp [alignUp, hal]

/-- The address produced by alignUp is a multiple of the alignment. -/
theorem alignUp_mod (addr align r : Nat) (h : alignUp addr align = some r) :
    r % align = 0 := by
  have hal : align ≠ 0 := by
    intro h0; rw [alignUp, if_pos h0] at h; cases h
  rw [alignUp_eq addr align hal] at h
  injection h with h
  subst h
  by_cases hmod : addr % align = 0
  · simp [hmod, Nat.mod_self, Nat.add_mod]
  · have hlt : addr % align < align := Nat.mod_lt _ (Nat.pos_of_ne_zero hal)
    have hrem : (align - addr % align) % align = align - addr % align := by
      apply Nat.mod_eq_of_lt; omega
    rw [hrem]
    rw [Nat.add_mod, hrem]
    have h2 : addr % align + (align - addr % align) = align := by omega
    rw [h2, Nat.mod_self]

/-- alignUp never moves the address backwards. -/
theorem alignUp_le (addr align r : Nat) (h : alignUp addr align = some r) :
    addr ≤ r := by
  have hal : align ≠ 0 := by
    intro h0; rw [alignUp, if_pos h0] at h; cases h
  rw [alignUp_eq addr align hal] at h
  injection h with h
  omega

/-!  Lemmas about the offsets map. -/

/-- Unfolding of mapGet over a cons cell. -/
theorem mapGet_cons (p : Nat × Nat) (rest : List (Nat × Nat)) (k : Nat) :
    mapGet (p :: rest) k = if p.1 = k then p.2 else mapGet rest k := by
  by_cases h : p.1 = k <;> simp [mapGet, List.find?, h]

/-- Reading back the key just written. -/
theorem mapGet_mapSet_self (m : List (Nat × Nat)) (k v : Nat) :
    mapGet (mapSet m k v) k = v := by
  induction m with
  | nil => simp [mapSet, mapGet_cons]
  | cons p rest ih =>
      by_cases h : p.1 = k
      · rw [mapSet, if_pos h, mapGet_cons]
        simp
      · rw [mapSet, if_neg h, mapGet_cons, if_neg h]
        exact ih

/-- Writing one key leaves every other key unchanged. -/
theorem mapGet_mapSet_ne (m : List (Nat × Nat)) (k j v : Nat) (h : k ≠ j) :
    mapGet (mapSet m j v) k = mapGet m k := by
  induction m with
  | nil => simp [mapSet, mapGet_cons, mapGet, Ne.symm h]
  | cons p rest ih =>
      by_cases hp : p.1 = j
      · rw [mapSet, if_pos hp, mapGet_cons, mapGet_cons, if_neg, if_neg]
        · rw [hp]; exact fun hh => h hh.symm
        · exact Ne.symm h
      · rw [mapSet, if_neg hp, mapGet_cons, mapGet_cons]
        by_cases hk : p.1 = k
        · rw [if_pos hk, if_pos hk]
        · rw [if_neg hk, if_neg hk]
          exact ih

/-!  Lemmas about Phase A, the section placement. -/

/-- Placement succeeds exactly when every section to place has a nonzero
alignment. -/
theorem placeSections_isSome_iff (secs : List ElfRelocatorSection)
    (m : List (Nat × Nat)) (addr : Nat) :
    (placeSections secs m addr).isSome ↔ ∀ e ∈ secs, e.sec.alignment ≠ 0 := by
  induction secs generalizing m addr with
  | nil => simp [placeSections]
  | cons e rest ih =>
      by_cases hal : e.sec.alignment = 0
      · simp [placeSections, alignUp, hal]
      · rw [placeSections, alignUp_eq _ _ hal]
        simpa [hal] using ih (mapSet m e.index _) _

/-- The placement address never decreases. -/
theorem placeSections_addr_le (secs : List ElfRelocatorSection)
    (m : List (Nat × Nat)) (addr : Nat) (offs : List (Nat × Nat)) (a1 : Nat)
    (h : placeSections secs m addr = some (offs, a1)) : addr ≤ a1 := by
  induction secs generalizing m addr with
  | nil =>
      simp only [placeSections] at h
      injection h with h
      injection h with _ h
      omega
  | cons e rest ih =>
      rw [placeSections] at h
      cases ha : alignUp addr e.sec.alignment with
      | none => rw [ha] at h; cases h
      | some a =>
          rw [ha] at h
          have h1 := ih (mapSet m e.index a) (a + e.sec.size) h
          have h2 := alignUp_le addr e.sec.alignment a ha
          omega

/-- Keys outside the placed sections keep their prior offsets. -/
theorem placeSections_preserves (secs : List ElfRelocatorSection)
    (m : List (Nat × Nat)) (addr : Nat) (offs : List (Nat × Nat)) (a1 k : Nat)
    (h : placeSections secs m addr = some (offs, a1))
    (hk : ∀ e ∈ secs, e.index ≠ k) : mapGet offs k = mapGet m k := by
  induction secs generalizing m addr with
  | nil =>
      simp only [placeSections] at h
      injection h with h
      injection h with h _
      rw [h]
  | cons e rest ih =>
      rw [placeSections] at h
      cases ha : alignUp addr e.sec.alignment with
      | none => rw [ha] at h; cases h
      | some a =>
          rw [ha] at h
          have h1 := ih (mapSet m e.index a) (a + e.sec.size) h
            (fun x hx => hk x (List.mem_cons_of_mem _ hx))
          rw [h1, mapGet_mapSet_ne]
          exact fun hh => hk e (List.mem_cons_self _ _) hh.symm

/-- Placement of distinct-index sections: every placed section gets an
offset aligned to its alignment, at or after the starting address, and its
extent fits below the final address. -/
theorem placeSections_spec (secs : List ElfRelocatorSection)
    (m : List (Nat × Nat)) (addr : Nat) (offs : List (Nat × Nat)) (a1 : Nat)
    (h : placeSections secs m addr = some (offs, a1))
    (hnodup : (secs.map (fun e => e.index)).Nodup) :
    ∀ e ∈ secs, mapGet offs e.index % e.sec.alignment = 0 ∧
      addr ≤ mapGet offs e.index ∧ mapGet offs e.index + e.sec.size ≤ a1 := by
  induction secs generalizing m addr with
  | nil => intro e he; cases he
  | cons e0 rest ih =>
      rw [placeSections] at h
      cases ha : alignUp addr e0.sec.alignment with
      | none => rw [ha] at h; cases h
      | some a =>
          rw [ha] at h
          rw [List.map_cons, List.nodup_cons] at hnodup
          intro e he
          rcases List.mem_cons.mp he with he0 | herest
          · subst he0
            have hget : mapGet offs e.index = a := by
              rw [placeSections_preserves rest (mapSet m e.index a) (a + e.sec.size) offs a1
                e.index h ?_, mapGet_mapSet_self]
              intro x hx hxi
              exact hnodup.1 (by rw [← hxi]; exact List.mem_map_of_mem _ hx)
            refine ⟨?_, ?_, ?_⟩
            · rw [hget]; exact alignUp_mod addr e.sec.alignment a ha
            · rw [hget]; exact alignUp_le addr e.sec.alignment a ha
            · rw [hget]
              exact placeSections_addr_le rest (mapSet m e.index a) (a + e.sec.size) offs a1 h
          · have h1 := ih (mapSet m e0.index a) (a + e0.sec.size) h hnodup.2 e herest
            have h2 := alignUp_le addr e0.sec.alignment a ha
            exact ⟨h1.1, by omega, h1.2.2⟩

/-!  Lemmas about Phase B, the section copy-and-patch loop. -/

/-- Patching a word never changes the buffer length. -/
theorem replaceDoubleWord_length (d : List Nat) (pos v : Nat) :
    (replaceDoubleWord d pos v).length = d.length := by
  simp [replaceDoubleWord]

/-- One relocation entry leaves the length of the working buffer
unchanged. -/
theorem processRelEntry_data_length (hook : Hook) (elf : ElfFile) (env : Env)
    (offsets : List (Nat × Nat)) (index : Nat) (st : RelState) (rel : Elf32_Rel) :
    (processRelEntry hook elf env offsets index st rel).data.length = st.data.length := by
  rw [processRelEntry]
  by_cases h0 : rel.getSymbolNum = 0
  · rw [if_pos h0]
  · rw [if_neg h0]
    by_cases hext : (mkRelData hook elf offsets index st.data rel).targetSymbolType = STT_NOTYPE
        ∧ (elf.getSymbol rel.getSymbolNum).st_shndx = 0
    · rw [if_pos hext]
      dsimp only
      cases henv : env (toWLowercase (elf.strTab (elf.getSymbol rel.getSymbolNum).st_name)) with
      | none => rfl
      | some label =>
          dsimp only
          by_cases hdef : label.defined = false
          · rw [if_pos hdef]
          · rw [if_neg hdef, applyOpcode]
            cases hook.relocateOpcode rel.getType _ with
            | none => rfl
            | some rd2 => exact replaceDoubleWord_length _ _ _
    · rw [if_neg hext, applyOpcode]
      cases hook.relocateOpcode rel.getType _ with
      | none => rfl
      | some rd2 => exact replaceDoubleWord_length _ _ _

/-- One relocation entry never clears the error flag. -/
theorem processRelEntry_error_mono (hook : Hook) (elf : ElfFile) (env : Env)
    (offsets : List (Nat × Nat)) (index : Nat) (st : RelState) (rel : Elf32_Rel)
    (h : st.error = true) :
    (processRelEntry hook elf env offsets index st rel).error = true := by
  rw [processRelEntry]
  by_cases h0 : rel.getSymbolNum = 0
  · rw [if_pos h0]
  · rw [if_neg h0]
    by_cases hext : (mkRelData hook elf offsets index st.data rel).targetSymbolType = STT_NOTYPE
        ∧ (elf.getSymbol rel.getSymbolNum).st_shndx = 0
    · rw [if_pos hext]
      dsimp only
      cases henv : env (toWLowercase (elf.strTab (elf.getSymbol rel.getSymbolNum).st_name)) with
      | none => rfl
      | some label =>
          dsimp only
          by_cases hdef : label.defined = false
          · rw [if_pos hdef]
          · rw [if_neg hdef, applyOpcode]
            cases hook.relocateOpcode rel.getType _ with
            | none => rfl
            | some rd2 => exact h
    · rw [if_neg hext, applyOpcode]
      cases hook.relocateOpcode rel.getType _ with
      | none => rfl
      | some rd2 => exact h

/-- The relocation-entry loop preserves the buffer length. -/
theorem foldRel_data_length (hook : Hook) (elf : ElfFile) (env : Env)
    (offsets : List (Nat × Nat)) (index : Nat) (rels : List Elf32_Rel) (st : RelState) :
    (rels.foldl (processRelEntry hook elf env offsets index) st).data.length
      = st.data.length := by
  induction rels generalizing st with
  | nil => rfl
  | cons r rest ih =>
      rw [List.foldl_cons, ih]
      exact processRelEntry_data_length hook elf env offsets index st r

/-- The relocation-entry loop never clears the error flag. -/
theorem foldRel_error_mono (hook : Hook) (elf : ElfFile) (env : Env)
    (offsets : List (Nat × Nat)) (index : Nat) (rels : List Elf32_Rel) (st : RelState)
    (h : st.error = true) :
    (rels.foldl (processRelEntry hook elf env offsets index) st).error = true := by
  induction rels generalizing st with
  | nil => exact h
  | cons r rest ih =>
      rw [List.foldl_cons]
      exact ih _ (processRelEntry_error_mono hook elf env offsets index st r h)

/-- A copy that stays inside the destination keeps its length. -/
theorem memcpyAt_length (out : List Nat) (pos : Nat) (src : List Nat)
    (h : pos + src.length ≤ out.length) :
    (memcpyAt out pos src).length = out.length := by
  simp only [memcpyAt, List.length_append, List.length_take, List.length_drop]
  omega

/-- One section load keeps the output length, provided the section's bytes
fit at the placed position. -/
theorem loadSection_length (hook : Hook) (elf : ElfFile) (env : Env)
    (offsets : List (Nat × Nat)) (dataStart start : Nat)
    (acc : List Nat × List (Level × ErrMsg) × Bool) (entry : ElfRelocatorSection)
    (h : entry.sec.sectionType ≠ SHT_NOBITS →
      dataStart + mapGet offsets entry.index - start + entry.sec.data.length
        ≤ acc.1.length) :
    (loadSection hook elf env offsets dataStart start acc entry).1.length
      = acc.1.length := by
  obtain ⟨outputData, msgs, error⟩ := acc
  rw [loadSection]
  by_cases hn : entry.sec.sectionType = SHT_NOBITS
  · rw [if_pos hn]
  · rw [if_neg hn]
    simp only
    apply memcpyAt_length
    cases hrel : entry.relSection with
    | none => exact h hn
    | some rels => rw [foldRel_data_length]; exact h hn

/-- One section load never clears the error flag. -/
theorem loadSection_error_mono (hook : Hook) (elf : ElfFile) (env : Env)
    (offsets : List (Nat × Nat)) (dataStart start : Nat)
    (acc : List Nat × List (Level × ErrMsg) × Bool) (entry : ElfRelocatorSection)
    (h : acc.2.2 = true) :
    (loadSection hook elf env offsets dataStart start acc entry).2.2 = true := by
  obtain ⟨outputData, msgs, error⟩ := acc
  rw [loadSection]
  by_cases hn : entry.sec.sectionType = SHT_NOBITS
  · rw [if_pos hn]; exact h
  · rw [if_neg hn]
    simp only
    cases hrel : entry.relSection with
    | none => exact h
    | some rels => exact foldRel_error_mono hook elf env offsets entry.index rels _ h

/-- The section loop preserves the output length as long as every
non-NOBITS section fits at its placed position. -/
theorem loadSections_length (hook : Hook) (elf : ElfFile) (env : Env)
    (offsets : List (Nat × Nat)) (dataStart start : Nat)
    (secs : List ElfRelocatorSection) (acc : List Nat × List (Level × ErrMsg) × Bool)
    (h : ∀ e ∈ secs, e.sec.sectionType ≠ SHT_NOBITS →
      dataStart + mapGet offsets e.index - start + e.sec.data.length ≤ acc.1.length) :
    (secs.foldl (loadSection hook elf env offsets dataStart start) acc).1.length
      = acc.1.length := by
  induction secs generalizing acc with
  | nil => rfl
  | cons e rest ih =>
      rw [List.foldl_cons]
      have he : (loadSection hook elf env offsets dataStart start acc e).1.length
          = acc.1.length :=
        loadSection_length hook elf env offsets dataStart start acc e
          (h e (List.mem_cons_self _ _))
      rw [ih _ ?_, he]
      intro x hx hxn
      rw [he]
      exact h x (List.mem_cons_of_mem _ hx) hxn

/-- The section loop never clears the error flag. -/
theorem loadSections_error_mono (hook : Hook) (elf : ElfFile) (env : Env)
    (offsets : List (Nat × Nat)) (dataStart start : Nat)
    (secs : List ElfRelocatorSection) (acc : List Nat × List (Level × ErrMsg) × Bool)
    (h : acc.2.2 = true) :
    (secs.foldl (loadSection hook elf env offsets dataStart start) acc).2.2 = true := by
  induction secs generalizing acc with
  | nil => exact h
  | cons e rest ih =>
      rw [List.foldl_cons]
      exact ih _ (loadSection_error_mono hook elf env offsets dataStart start acc e h)

/-!  Lemmas about Phase C, the symbol update loop. -/

/-- The per-symbol step of Phase C moves the address forward, grows the
output by exactly the address advance, and touches neither the symbol
table nor the dataChanged flag. -/
theorem symbolNewState_state (offsets : List (Nat × Nat)) (sym : ElfRelocatorSymbol)
    (st : SymState) (n : Nat) (st1 : SymState)
    (h : symbolNewState offsets sym st = some (n, st1)) :
    st.addr ≤ st1.addr ∧
    st1.outputData.length = st.outputData.length + (st1.addr - st.addr) ∧
    st1.env = st.env ∧ st1.dataChanged = st.dataChanged := by
  rw [symbolNewState] at h
  by_cases habs : sym.sectionIndex = SHN_ABS
  · rw [if_pos habs] at h
    injection h with h
    injection h with h1 h2
    subst h2
    exact ⟨Nat.le_refl _, by omega, rfl, rfl⟩
  · rw [if_neg habs] at h
    by_cases hcom : sym.sectionIndex = SHN_COMMON
    · rw [if_pos hcom] at h
      cases ha : alignUp st.addr sym.relativeAddress with
      | none => rw [ha] at h; cases h
      | some a =>
          rw [ha] at h
          injection h with h
          injection h with h1 h2
          subst h2
          have hle := alignUp_le st.addr sym.relativeAddress a ha
          refine ⟨?_, ?_, rfl, rfl⟩
          · show st.addr ≤ a + sym.size
            omega
          · show (st.outputData ++ List.replicate (a + sym.size - st.addr) 0).length
              = st.outputData.length + (a + sym.size - st.addr)
            simp only [List.length_append, List.length_replicate]
    · rw [if_neg hcom] at h
      injection h with h
      injection h with h1 h2
      subst h2
      exact ⟨Nat.le_refl _, by omega, rfl, rfl⟩

/-- The per-symbol step succeeds exactly when the symbol is not a
SHN_COMMON symbol with a zero alignment requirement. -/
theorem symbolNewState_isSome_iff (offsets : List (Nat × Nat)) (sym : ElfRelocatorSymbol)
    (st : SymState) :
    (symbolNewState offsets sym st).isSome ↔
      (sym.sectionIndex = SHN_COMMON → sym.relativeAddress ≠ 0) := by
  rw [symbolNewState]
  by_cases habs : sym.sectionIndex = SHN_ABS
  · have hne : sym.sectionIndex ≠ SHN_COMMON := by rw [habs]; decide
    rw [if_pos habs]
    constructor
    · intro _ hcom
      exact absurd hcom hne
    · intro _
      rfl
  · rw [if_neg habs]
    by_cases hcom : sym.sectionIndex = SHN_COMMON
    · rw [if_pos hcom]
      by_cases hz : sym.relativeAddress = 0
      · simp [alignUp, hz, hcom]
      · rw [alignUp_eq _ _ hz]
        simp [hcom, hz]
    · simp [hcom]

/-- Phase C grows the output image by exactly the amount the address
advances (the SHN_COMMON allocations), and never moves the address
backwards. -/
theorem updateSymbols_length (offsets : List (Nat × Nat)) (syms : List ElfRelocatorSymbol)
    (st : SymState) (syms2 : List ElfRelocatorSymbol) (st2 : SymState)
    (h : updateSymbols offsets syms st = some (syms2, st2)) :
    st.addr ≤ st2.addr ∧
    st2.outputData.length = st.outputData.length + (st2.addr - st.addr) := by
  induction syms generalizing st syms2 with
  | nil =>
      simp only [updateSymbols, Option.some.injEq, Prod.mk.injEq] at h
      obtain ⟨h1, h2⟩ := h
      subst h2
      exact ⟨Nat.le_refl _, by omega⟩
  | cons sym rest ih =>
      rw [updateSymbols] at h
      cases hstep : symbolNewState offsets sym st with
      | none => rw [hstep] at h; cases h
      | some p =>
          obtain ⟨newAddress, st1⟩ := p
          rw [hstep] at h
          dsimp only at h
          cases hrec : updateSymbols offsets rest (symbolCommit sym newAddress st1) with
          | none => rw [hrec] at h; cases h
          | some q =>
              obtain ⟨rest2, st3⟩ := q
              rw [hrec] at h
              injection h with h
              injection h with hsyms hst
              subst hst
              have h1 := symbolNewState_state offsets sym st newAddress st1 hstep
              have h2 := ih (symbolCommit sym newAddress st1) rest2 hrec
              simp only [symbolCommit] at h2
              constructor
              · omega
              · omega

/-- Phase C never clears an already-raised dataChanged flag. -/
theorem updateSymbols_dc_mono (offsets : List (Nat × Nat)) (syms : List ElfRelocatorSymbol)
    (st : SymState) (syms2 : List ElfRelocatorSymbol) (st2 : SymState)
    (h : updateSymbols offsets syms st = some (syms2, st2))
    (hdc : st.dataChanged = true) : st2.dataChanged = true := by
  induction syms generalizing st syms2 with
  | nil =>
      simp only [updateSymbols, Option.some.injEq, Prod.mk.injEq] at h
      obtain ⟨h1, h2⟩ := h
      subst h2
      exact hdc
  | cons sym rest ih =>
      rw [updateSymbols] at h
      cases hstep : symbolNewState offsets sym st with
      | none => rw [hstep] at h; cases h
      | some p =>
          obtain ⟨newAddress, st1⟩ := p
          rw [hstep] at h
          dsimp only at h
          cases hrec : updateSymbols offsets rest (symbolCommit sym newAddress st1) with
          | none => rw [hrec] at h; cases h
          | some q =>
              obtain ⟨rest2, st3⟩ := q
              rw [hrec] at h
              injection h with h
              injection h with hsyms hst
              subst hst
              have h1 := symbolNewState_state offsets sym st newAddress st1 hstep
              apply ih _ _ hrec
              simp only [symbolCommit]
              rw [h1.2.2.2, hdc]
              rfl

/-- Phase C succeeds exactly when every SHN_COMMON symbol carries a
nonzero alignment requirement in its relativeAddress. -/
theorem updateSymbols_isSome_iff (offsets : List (Nat × Nat))
    (syms : List ElfRelocatorSymbol) (st : SymState) :
    (updateSymbols offsets syms st).isSome ↔
      ∀ s ∈ syms, s.sectionIndex = SHN_COMMON → s.relativeAddress ≠ 0 := by
  induction syms generalizing st with
  | nil => simp [updateSymbols]
  | cons sym rest ih =>
      rw [updateSymbols]
      cases hstep : symbolNewState offsets sym st with
      | none =>
          constructor
          · intro hfalse
            cases hfalse
          · intro hall
            have h1 := (symbolNewState_isSome_iff offsets sym st).mpr
              (hall sym (List.mem_cons_self _ _))
            rw [hstep] at h1
            cases h1
      | some p =>
          obtain ⟨n, st1⟩ := p
          dsimp only
          cases hrec : updateSymbols offsets rest (symbolCommit sym n st1) with
          | none =>
              constructor
              · intro hfalse
                cases hfalse
              · intro hall
                have h2 := (ih (symbolCommit sym n st1)).mpr
                  (fun s hs => hall s (List.mem_cons_of_mem _ hs))
                rw [hrec] at h2
                cases h2
          | some q =>
              obtain ⟨rest2, st3⟩ := q
              constructor
              · intro _ s hs
                rcases List.mem_cons.mp hs with h1 | h1
                · subst h1
                  exact (symbolNewState_isSome_iff offsets s st).mp (by rw [hstep]; rfl)
                · exact (ih (symbolCommit sym n st1)).mp (by rw [hrec]; rfl) s h1
              · intro _
                rfl

/-- Setting a label's value back to the value it already holds does not
change the symbol table. -/
theorem envSetValue_noop (env : Env) (name : List Nat) (v : Nat) (l : Label)
    (hl : env name = some l) (hv : l.value = v) : envSetValue env name v = env := by
  funext x
  rw [envSetValue]
  by_cases hx : x = name
  · rw [if_pos hx, hx, hl]
    subst hv
    rfl
  · rw [if_neg hx]

/-- Fixed-point property of Phase C: when the loop raises no dataChanged
and the symbol table already agrees with the stored relocated addresses of
the labelled symbols, the symbols and the table come out unchanged. -/
theorem updateSymbols_fixed (offsets : List (Nat × Nat)) (syms : List ElfRelocatorSymbol)
    (st : SymState) (syms2 : List ElfRelocatorSymbol) (st2 : SymState)
    (h : updateSymbols offsets syms st = some (syms2, st2))
    (hdc : st2.dataChanged = false)
    (hcons : ∀ s ∈ syms, s.hasLabel = true →
      ∃ l, st.env s.name = some l ∧ l.value = s.relocatedAddress) :
    syms2 = syms ∧ st2.env = st.env := by
  induction syms generalizing st syms2 with
  | nil =>
      simp only [updateSymbols, Option.some.injEq, Prod.mk.injEq] at h
      obtain ⟨h1, h2⟩ := h
      subst h2
      exact ⟨h1.symm, rfl⟩
  | cons sym rest ih =>
      rw [updateSymbols] at h
      cases hstep : symbolNewState offsets sym st with
      | none => rw [hstep] at h; cases h
      | some p =>
          obtain ⟨n, st1⟩ := p
          rw [hstep] at h
          dsimp only at h
          cases hrec : updateSymbols offsets rest (symbolCommit sym n st1) with
          | none => rw [hrec] at h; cases h
          | some q =>
              obtain ⟨rest2, st3⟩ := q
              rw [hrec] at h
              injection h with h
              injection h with hsyms hst
              subst hst
              have hstate := symbolNewState_state offsets sym st n st1 hstep
              have hcdc : (symbolCommit sym n st1).dataChanged = false := by
                cases hb : (symbolCommit sym n st1).dataChanged with
                | false => rfl
                | true =>
                    have h3 := updateSymbols_dc_mono offsets rest _ rest2 st3 hrec hb
                    rw [hdc] at h3
                    cases h3
              have hparts : st1.dataChanged = false ∧ sym.relocatedAddress = n := by
                simp only [symbolCommit, Bool.or_eq_false_iff, decide_eq_false_iff_not,
                  ne_eq, not_not] at hcdc
                exact hcdc
              have henv1 : (symbolCommit sym n st1).env = st.env := by
                rw [symbolCommit]
                cases hlab : sym.hasLabel with
                | false => simpa using hstate.2.2.1
                | true =>
                    obtain ⟨l, hl, hv⟩ := hcons sym (List.mem_cons_self _ _) hlab
                    simp only [if_pos]
                    rw [hstate.2.2.1]
                    exact envSetValue_noop st.env sym.name n l hl (by omega)
              have hrest := ih (symbolCommit sym n st1) rest2 hrec
                (by rw [henv1]; exact fun s hs => hcons s (List.mem_cons_of_mem _ hs))
              constructor
              · rw [← hsyms, hrest.1, ← hparts.2]
              · rw [hrest.2, henv1]

/-!  Lemmas about relocateFile as a whole. -/

/-- relocateFile returns a result exactly when every loadable section has
a nonzero alignment and every SHN_COMMON symbol a nonzero alignment
requirement: the align-up loops divide by the alignment with no zero
guard. -/
theorem relocateFile_isSome_iff (hook : Hook) (file : ElfRelocatorFile)
    (addr : Nat) (out : List Nat) (env : Env) (msgs : List (Level × ErrMsg)) (dc : Bool) :
    (relocateFile hook file addr out env msgs dc).isSome ↔
      (∀ e ∈ file.sections, e.sec.alignment ≠ 0) ∧
      (∀ s ∈ file.symbols, s.sectionIndex = SHN_COMMON → s.relativeAddress ≠ 0) := by
  rw [relocateFile]
  cases hplace : placeSections file.sections [] addr with
  | none =>
      have h1 := placeSections_isSome_iff file.sections [] addr
      rw [hplace] at h1
      constructor
      · intro hfalse
        cases hfalse
      · intro hall
        exact absurd (h1.mpr hall.1) (by simp)
  | some p =>
      obtain ⟨offsets, addr1⟩ := p
      have h1 := placeSections_isSome_iff file.sections [] addr
      rw [hplace] at h1
      dsimp only
      cases hupd : updateSymbols offsets file.symbols
          { addr := addr1,
            outputData := (file.sections.foldl
              (loadSection hook file.elf env offsets out.length addr)
              (out ++ List.replicate (addr1 - addr) 0, msgs, false)).1,
            env := env, dataChanged := dc } with
      | none =>
          have h2 := updateSymbols_isSome_iff offsets file.symbols
            { addr := addr1,
              outputData := (file.sections.foldl
                (loadSection hook file.elf env offsets out.length addr)
                (out ++ List.replicate (addr1 - addr) 0, msgs, false)).1,
              env := env, dataChanged := dc }
          rw [hupd] at h2
          constructor
          · intro hfalse
            cases hfalse
          · intro hall
            exact absurd (h2.mpr hall.2) (by simp)
      | some q =>
          obtain ⟨syms2, st⟩ := q
          have h2 := updateSymbols_isSome_iff offsets file.symbols
            { addr := addr1,
              outputData := (file.sections.foldl
                (loadSection hook file.elf env offsets out.length addr)
                (out ++ List.replicate (addr1 - addr) 0, msgs, false)).1,
              env := env, dataChanged := dc }
          rw [hupd] at h2
          constructor
          · intro _
            exact ⟨h1.mp rfl, h2.mp rfl⟩
          · intro _
            rfl

/-- relocateFile advances the address by exactly the number of bytes it
appends to the output image. -/
theorem relocateFile_length (hook : Hook) (file : ElfRelocatorFile)
    (addr : Nat) (out : List Nat) (env : Env) (msgs : List (Level × ErrMsg)) (dc : Bool)
    (r : FileResult)
    (h : relocateFile hook file addr out env msgs dc = some r)
    (hdata : ∀ e ∈ file.sections, e.sec.sectionType ≠ SHT_NOBITS →
      e.sec.data.length = e.sec.size)
    (hnodup : (file.sections.map (fun e => e.index)).Nodup) :
    addr ≤ r.addr ∧ r.outputData.length = out.length + (r.addr - addr) := by
  rw [relocateFile] at h
  cases hplace : placeSections file.sections [] addr with
  | none => rw [hplace] at h; cases h
  | some p =>
      obtain ⟨offsets, addr1⟩ := p
      rw [hplace] at h
      dsimp only at h
      have haddr1 := placeSections_addr_le file.sections [] addr offsets addr1 hplace
      have hspec := placeSections_spec file.sections [] addr offsets addr1 hplace hnodup
      have hB : (file.sections.foldl
          (loadSection hook file.elf env offsets out.length addr)
          (out ++ List.replicate (addr1 - addr) 0, msgs, false)).1.length
          = out.length + (addr1 - addr) := by
        rw [loadSections_length]
        · simp [List.length_append, List.length_replicate]
        · intro e he hne
          have h1 := hspec e he
          have h2 := hdata e he hne
          simp only [List.length_append, List.length_replicate]
          omega
      cases hupd : updateSymbols offsets file.symbols
          { addr := addr1,
            outputData := (file.sections.foldl
              (loadSection hook file.elf env offsets out.length addr)
              (out ++ List.replicate (addr1 - addr) 0, msgs, false)).1,
            env := env, dataChanged := dc } with
      | none => rw [hupd] at h; cases h
      | some q =>
          obtain ⟨syms2, st⟩ := q
          rw [hupd] at h
          injection h with h
          subst h
          have hC := updateSymbols_length offsets file.symbols _ syms2 st hupd
          have hC1 : addr1 ≤ st.addr := hC.1
          have hC2 : st.outputData.length = (file.sections.foldl
              (loadSection hook file.elf env offsets out.length addr)
              (out ++ List.replicate (addr1 - addr) 0, msgs, false)).1.length
              + (st.addr - addr1) := hC.2
          rw [hB] at hC2
          refine ⟨?_, ?_⟩
          · show addr ≤ st.addr
            omega
          · show st.outputData.length = out.length + (st.addr - addr)
            omega

/-- relocateFile never clears an already-raised dataChanged flag. -/
theorem relocateFile_dc_mono (hook : Hook) (file : ElfRelocatorFile)
    (addr : Nat) (out : List Nat) (env : Env) (msgs : List (Level × ErrMsg)) (dc : Bool)
    (r : FileResult)
    (h : relocateFile hook file addr out env msgs dc = some r)
    (hdc : dc = true) : r.dataChanged = true := by
  rw [relocateFile] at h
  cases hplace : placeSections file.sections [] addr with
  | none => rw [hplace] at h; cases h
  | some p =>
      obtain ⟨offsets, addr1⟩ := p
      rw [hplace] at h
      dsimp only at h
      cases hupd : updateSymbols offsets file.symbols
          { addr := addr1,
            outputData := (file.sections.foldl
              (loadSection hook file.elf env offsets out.length addr)
              (out ++ List.replicate (addr1 - addr) 0, msgs, false)).1,
            env := env, dataChanged := dc } with
      | none => rw [hupd] at h; cases h
      | some q =>
          obtain ⟨syms2, st⟩ := q
          rw [hupd] at h
          injection h with h
          subst h
          exact updateSymbols_dc_mono offsets file.symbols _ syms2 st hupd hdc

/-- Fixed-point property of relocateFile: a file whose pass raises no
dataChanged, against a symbol table that already carries the stored
relocated addresses, comes out with the same symbols and the same
table. -/
theorem relocateFile_fixed (hook : Hook) (file : ElfRelocatorFile)
    (addr : Nat) (out : List Nat) (env : Env) (msgs : List (Level × ErrMsg)) (dc : Bool)
    (r : FileResult)
    (h : relocateFile hook file addr out env msgs dc = some r)
    (hdc : r.dataChanged = false)
    (hcons : ∀ s ∈ file.symbols, s.hasLabel = true →
      ∃ l, env s.name = some l ∧ l.value = s.relocatedAddress) :
    r.file = file ∧ r.env = env := by
  rw [relocateFile] at h
  cases hplace : placeSections file.sections [] addr with
  | none => rw [hplace] at h; cases h
  | some p =>
      obtain ⟨offsets, addr1⟩ := p
      rw [hplace] at h
      dsimp only at h
      cases hupd : updateSymbols offsets file.symbols
          { addr := addr1,
            outputData := (file.sections.foldl
              (loadSection hook file.elf env offsets out.length addr)
              (out ++ List.replicate (addr1 - addr) 0, msgs, false)).1,
            env := env, dataChanged := dc } with
      | none => rw [hupd] at h; cases h
      | some q =>
          obtain ⟨syms2, st⟩ := q
          rw [hupd] at h
          injection h with h
          subst h
          have hfix := updateSymbols_fixed offsets file.symbols _ syms2 st hupd hdc hcons
          constructor
          · show { file with symbols := syms2 } = file
            rw [hfix.1]
          · exact hfix.2

/-!  Lemmas about the loop over all loaded files and the whole pass. -/

/-- The file loop advances the address by exactly the number of bytes it
appends to the output image. -/
theorem relocateFiles_length (hook : Hook) (files : List ElfRelocatorFile)
    (addr : Nat) (out : List Nat) (env : Env) (msgs : List (Level × ErrMsg))
    (dc err : Bool) (res : FilesResult)
    (h : relocateFiles hook files addr out env msgs dc err = some res)
    (hdata : ∀ f ∈ files, ∀ e ∈ f.sections, e.sec.sectionType ≠ SHT_NOBITS →
      e.sec.data.length = e.sec.size)
    (hnodup : ∀ f ∈ files, (f.sections.map (fun e => e.index)).Nodup) :
    addr ≤ res.addr ∧ res.outputData.length = out.length + (res.addr - addr) := by
  induction files generalizing addr out env msgs dc err res with
  | nil =>
      simp only [relocateFiles, Option.some.injEq] at h
      subst h
      refine ⟨Nat.le_refl _, ?_⟩
      show out.length = out.length + (addr - addr)
      omega
  | cons file rest ih =>
      rw [relocateFiles] at h
      cases hfile : relocateFile hook file addr out env msgs dc with
      | none => rw [hfile] at h; cases h
      | some r =>
          rw [hfile] at h
          dsimp only at h
          cases hrest : relocateFiles hook rest r.addr r.outputData r.env r.msgs
              r.dataChanged (err || !r.success) with
          | none => rw [hrest] at h; cases h
          | some res0 =>
              rw [hrest] at h
              injection h with h
              subst h
              have h1 := relocateFile_length hook file addr out env msgs dc r hfile
                (hdata file (List.mem_cons_self _ _)) (hnodup file (List.mem_cons_self _ _))
              have h2 := ih r.addr r.outputData r.env r.msgs r.dataChanged
                (err || !r.success) res0 hrest
                (fun f hf => hdata f (List.mem_cons_of_mem _ hf))
                (fun f hf => hnodup f (List.mem_cons_of_mem _ hf))
              refine ⟨?_, ?_⟩
              · show addr ≤ res0.addr
                omega
              · show res0.outputData.length = out.length + (res0.addr - addr)
                omega

/-- The file loop never clears an already-raised dataChanged flag. -/
theorem relocateFiles_dc_mono (hook : Hook) (files : List ElfRelocatorFile)
    (addr : Nat) (out : List Nat) (env : Env) (msgs : List (Level × ErrMsg))
    (dc err : Bool) (res : FilesResult)
    (h : relocateFiles hook files addr out env msgs dc err = some res)
    (hdc : dc = true) : res.dataChanged = true := by
  induction files generalizing addr out env msgs dc err res with
  | nil =>
      simp only [relocateFiles, Option.some.injEq] at h
      subst h
      exact hdc
  | cons file rest ih =>
      rw [relocateFiles] at h
      cases hfile : relocateFile hook file addr out env msgs dc with
      | none => rw [hfile] at h; cases h
      | some r =>
          rw [hfile] at h
          dsimp only at h
          cases hrest : relocateFiles hook rest r.addr r.outputData r.env r.msgs
              r.dataChanged (err || !r.success) with
          | none => rw [hrest] at h; cases h
          | some res0 =>
              rw [hrest] at h
              injection h with h
              subst h
              exact ih r.addr r.outputData r.env r.msgs r.dataChanged (err || !r.success)
                res0 hrest (relocateFile_dc_mono hook file addr out env msgs dc r hfile hdc)

/-- The file loop never clears an already-raised error flag. -/
theorem relocateFiles_error_mono (hook : Hook) (files : List ElfRelocatorFile)
    (addr : Nat) (out : List Nat) (env : Env) (msgs : List (Level × ErrMsg))
    (dc err : Bool) (res : FilesResult)
    (h : relocateFiles hook files addr out env msgs dc err = some res)
    (herr : err = true) : res.error = true := by
  induction files generalizing addr out env msgs dc err res with
  | nil =>
      simp only [relocateFiles, Option.some.injEq] at h
      subst h
      exact herr
  | cons file rest ih =>
      rw [relocateFiles] at h
      cases hfile : relocateFile hook file addr out env msgs dc with
      | none => rw [hfile] at h; cases h
      | some r =>
          rw [hfile] at h
          dsimp only at h
          cases hrest : relocateFiles hook rest r.addr r.outputData r.env r.msgs
              r.dataChanged (err || !r.success) with
          | none => rw [hrest] at h; cases h
          | some res0 =>
              rw [hrest] at h
              injection h with h
              subst h
              exact ih r.addr r.outputData r.env r.msgs r.dataChanged (err || !r.success)
                res0 hrest (by rw [herr]; rfl)

/-- Fixed-point property of the file loop: when no dataChanged is raised
and the symbol table agrees with the stored relocated addresses, the files
and the table come out unchanged. -/
theorem relocateFiles_fixed (hook : Hook) (files : List ElfRelocatorFile)
    (addr : Nat) (out : List Nat) (env : Env) (msgs : List (Level × ErrMsg))
    (err : Bool) (res : FilesResult)
    (h : relocateFiles hook files addr out env msgs false err = some res)
    (hdc : res.dataChanged = false)
    (hcons : ∀ f ∈ files, ∀ s ∈ f.symbols, s.hasLabel = true →
      ∃ l, env s.name = some l ∧ l.value = s.relocatedAddress) :
    res.files = files ∧ res.env = env := by
  induction files generalizing addr out env msgs err res with
  | nil =>
      simp only [relocateFiles, Option.some.injEq] at h
      subst h
      exact ⟨rfl, rfl⟩
  | cons file rest ih =>
      rw [relocateFiles] at h
      cases hfile : relocateFile hook file addr out env msgs false with
      | none => rw [hfile] at h; cases h
      | some r =>
          rw [hfile] at h
          dsimp only at h
          cases hrest : relocateFiles hook rest r.addr r.outputData r.env r.msgs
              r.dataChanged (err || !r.success) with
          | none => rw [hrest] at h; cases h
          | some res0 =>
              rw [hrest] at h
              injection h with h
              subst h
              have hrdc : r.dataChanged = false := by
                cases hb : r.dataChanged with
                | false => rfl
                | true =>
                    have h3 := relocateFiles_dc_mono hook rest r.addr r.outputData r.env
                      r.msgs r.dataChanged (err || !r.success) res0 hrest hb
                    rw [hdc] at h3
                    cases h3
              have hfix := relocateFile_fixed hook file addr out env msgs false r hfile hrdc
                (hcons file (List.mem_cons_self _ _))
              have hrest2 : relocateFiles hook rest r.addr r.outputData env r.msgs
                  false (err || !r.success) = some res0 := by
                rw [← hfix.2, ← hrdc]
                exact hrest
              have hres0 := ih r.addr r.outputData env r.msgs (err || !r.success) res0
                hrest2 hdc (fun f hf => hcons f (List.mem_cons_of_mem _ hf))
              refine ⟨?_, hres0.2⟩
              show r.file :: res0.files = file :: rest
              rw [hfix.1, hres0.1]

/-!  Propagation of a failing relocation entry into the return value of
relocateFile. -/

/-- A relocation entry that fails no matter the incoming state forces the
error flag of the whole entry loop. -/
theorem foldRel_error_of_mem (hook : Hook) (elf : ElfFile) (env : Env)
    (offsets : List (Nat × Nat)) (index : Nat) (rels : List Elf32_Rel) (rel : Elf32_Rel)
    (hmem : rel ∈ rels)
    (hfail : ∀ st, (processRelEntry hook elf env offsets index st rel).error = true)
    (st0 : RelState) :
    (rels.foldl (processRelEntry hook elf env offsets index) st0).error = true := by
  induction rels generalizing st0 with
  | nil => cases hmem
  | cons r rest ih =>
      rw [List.foldl_cons]
      rcases List.mem_cons.mp hmem with h1 | h1
      · subst h1
        exact foldRel_error_mono hook elf env offsets index rest _ (hfail st0)
      · exact ih h1 _

/-- A failing relocation entry in any non-NOBITS section forces the error
flag of the whole section loop. -/
theorem loadSections_error_of_mem (hook : Hook) (elf : ElfFile) (env : Env)
    (offsets : List (Nat × Nat)) (dataStart start : Nat)
    (secs : List ElfRelocatorSection) (entry : ElfRelocatorSection)
    (rels : List Elf32_Rel) (rel : Elf32_Rel)
    (hmem : entry ∈ secs) (hn : entry.sec.sectionType ≠ SHT_NOBITS)
    (hrels : entry.relSection = some rels) (hrel : rel ∈ rels)
    (hfail : ∀ st, (processRelEntry hook elf env offsets entry.index st rel).error = true)
    (acc : List Nat × List (Level × ErrMsg) × Bool) :
    (secs.foldl (loadSection hook elf env offsets dataStart start) acc).2.2 = true := by
  induction secs generalizing acc with
  | nil => cases hmem
  | cons e rest ih =>
      rw [List.foldl_cons]
      rcases List.mem_cons.mp hmem with h1 | h1
      · subst h1
        apply loadSections_error_mono
        obtain ⟨outputData, msgs, error⟩ := acc
        rw [loadSection, if_neg hn]
        dsimp only
        rw [hrels]
        exact foldRel_error_of_mem hook elf env offsets entry.index rels rel hrel hfail _
      · exact ih h1 _

/-- A relocation entry that fails no matter the incoming state makes
relocateFile return failure. -/
theorem relocateFile_success_false (hook : Hook) (file : ElfRelocatorFile)
    (addr : Nat) (out : List Nat) (env : Env) (msgs : List (Level × ErrMsg)) (dc : Bool)
    (r : FileResult)
    (h : relocateFile hook file addr out env msgs dc = some r)
    (entry : ElfRelocatorSection) (rels : List Elf32_Rel) (rel : Elf32_Rel)
    (hmem : entry ∈ file.sections) (hn : entry.sec.sectionType ≠ SHT_NOBITS)
    (hrels : entry.relSection = some rels) (hrel : rel ∈ rels)
    (hfail : ∀ offsets st,
      (processRelEntry hook file.elf env offsets entry.index st rel).error = true) :
    r.success = false := by
  rw [relocateFile] at h
  cases hplace : placeSections file.sections [] addr with
  | none => rw [hplace] at h; cases h
  | some p =>
      obtain ⟨offsets, addr1⟩ := p
      rw [hplace] at h
      dsimp only at h
      cases hupd : updateSymbols offsets file.symbols
          { addr := addr1,
            outputData := (file.sections.foldl
              (loadSection hook file.elf env offsets out.length addr)
              (out ++ List.replicate (addr1 - addr) 0, msgs, false)).1,
            env := env, dataChanged := dc } with
      | none => rw [hupd] at h; cases h
      | some q =>
          obtain ⟨syms2, st⟩ := q
          rw [hupd] at h
          injection h with h
          subst h
          show (!(file.sections.foldl
            (loadSection hook file.elf env offsets out.length addr)
            (out ++ List.replicate (addr1 - addr) 0, msgs, false)).2.2) = false
          rw [loadSections_error_of_mem hook file.elf env offsets out.length addr
            file.sections entry rels rel hmem hn hrels hrel (hfail offsets) _]
          rfl

/-!  The claim theorems. -/

/-- C1 (counterexample): for the path dir/foo.o, the single entry produced
from a bare ELF input is named "/foo.o", not the leaf filename "foo.o":
getFileNameFromPath returns path.substr(n) with the separator at position
n included. -/
theorem c1_cex :
    (loadArArchive elfInput pathDirFoo).map ArFileEntry.name
      = [[47, 102, 111, 111, 46, 111]] ∧
    ([47, 102, 111, 111, 46, 111] : List Nat) ≠ [102, 111, 111, 46, 111] := by
  constructor
  · rfl
  · decide

/-- C1 (amended): for an input whose first bytes are not the ar magic but
start with the ELF magic, loadArArchive returns exactly one entry whose
bytes are the whole input and whose name is the suffix of the input path
starting at the last path separator, separator included (the whole path
when there is none); for dir/foo.o that name is "/foo.o". -/
theorem c1_bare_elf_passthrough (input inputName : List Nat)
    (har : input.take 8 ≠ arMagic) (helf : input.take 4 = elfMagic) :
    loadArArchive input inputName =
      [{ name := getFileNameFromPath inputName, data := input }] ∧
    (∀ n, findLastSep inputName = some n →
      getFileNameFromPath inputName = inputName.drop n) ∧
    (findLastSep inputName = none → getFileNameFromPath inputName = inputName) ∧
    getFileNameFromPath pathDirFoo = [47, 102, 111, 111, 46, 111] := by
  refine ⟨?_, ?_, ?_, by rfl⟩
  · rw [loadArArchive, if_neg har, if_pos helf]
  · intro n hn
    rw [getFileNameFromPath, hn]
  · intro hn
    rw [getFileNameFromPath, hn]

/-- C1 (witness): the amended statement applied to the concrete bare ELF
input and the path dir/foo.o. -/
theorem c1_witness :
    loadArArchive elfInput pathDirFoo =
      [{ name := [47, 102, 111, 111, 46, 111], data := elfInput }] := by
  have h := c1_bare_elf_passthrough elfInput pathDirFoo (by decide) (by decide)
  rw [h.1, h.2.2.2]

/-- C2 (counterexample): at the SHN_COMMON scenario of the claim (address
0x1013, alignment 8, size 16) Phase C advances the address to 0x1028, a
delta of 0x15 from the 0x1013 start, not the claimed 0x20. -/
theorem c2_cex :
    ∃ st, updateSymbols [] [exCommonSym]
        { addr := 0x1013, outputData := [], env := fun _ => none, dataChanged := false }
        = some ([{ exCommonSym with relocatedAddress := 0x1018 }], st) ∧
      st.addr - 0x1013 = 0x15 ∧ ¬(st.addr - 0x1013 = 0x20) := by
  refine ⟨_, rfl, rfl, by decide⟩

/-- C2 (amended): with placement at 0x1013 and one retained OBJECT symbol
with section SHN_COMMON, alignment 8 and size 16, Phase C sets the
symbol's relocated address to 0x1018, advances the address to 0x1028 (a
delta of 0x15 = 0x05 padding plus 0x10 body from the 0x1013 start), and
zero-extends outputData by exactly those 0x15 allocated bytes. -/
theorem c2_common_allocation :
    ∃ st, updateSymbols [] [exCommonSym]
        { addr := 0x1013, outputData := [], env := fun _ => none, dataChanged := false }
        = some ([{ exCommonSym with relocatedAddress := 0x1018 }], st) ∧
      st.addr = 0x1028 ∧ st.addr - 0x1013 = 0x15 ∧
      st.outputData = List.replicate 0x15 0 := by
  refine ⟨_, rfl, rfl, rfl, by decide⟩

/-- C5: section placement aligns every placed section (address mod
alignment is zero for each recorded offset, for distinct section indices
and nonzero alignments as the align-up loop requires), and on the concrete
scenario of two sections with alignments 4 and 16 and sizes 5 and 3
starting at 0x1000 it records offsets 0x1000 and 0x1010 and ends at
0x1013, a delta of 0x13. -/
theorem c5_alignment_placement (secs : List ElfRelocatorSection) (addr : Nat)
    (offs : List (Nat × Nat)) (a1 : Nat)
    (h : placeSections secs [] addr = some (offs, a1))
    (hnodup : (secs.map (fun e => e.index)).Nodup) :
    (∀ e ∈ secs, mapGet offs e.index % e.sec.alignment = 0) ∧
    placeSections [exSection1, exSection2] [] 0x1000
      = some ([(0, 0x1000), (1, 0x1010)], 0x1013) ∧
    (0x1013 : Nat) - 0x1000 = 0x13 := by
  refine ⟨?_, by rfl, by decide⟩
  intro e he
  exact (placeSections_spec secs [] addr offs a1 h hnodup e he).1

/-- C5 (witness): the placement theorem applied to the concrete
two-section scenario. -/
theorem c5_witness :
    mapGet [(0, 0x1000), (1, 0x1010)] 0 % 4 = 0 ∧
    mapGet [(0, 0x1000), (1, 0x1010)] 1 % 16 = 0 := by
  have h := c5_alignment_placement [exSection1, exSection2] 0x1000
    [(0, 0x1000), (1, 0x1010)] 0x1013 (by rfl) (by decide)
  exact ⟨h.1 exSection1 (by decide), h.1 exSection2 (by decide)⟩

/-- C7: a relocation entry with symbol number 0 queues the warning
"Invalid symbol num", leaves the opcode word (the working buffer)
unpatched, and the loop goes on to process the remaining entries. -/
theorem c7_invalid_symbol_num (hook : Hook) (elf : ElfFile) (env : Env)
    (offsets : List (Nat × Nat)) (index : Nat) (st : RelState) (rel : Elf32_Rel)
    (h : rel.getSymbolNum = 0) :
    processRelEntry hook elf env offsets index st rel =
      { st with
        msgs := st.msgs ++ [(Level.warningLv, ErrMsg.invalidSymbolNum rel.getSymbolNum)],
        error := true } ∧
    (processRelEntry hook elf env offsets index st rel).data = st.data ∧
    (∀ rest, (rel :: rest).foldl (processRelEntry hook elf env offsets index) st =
      rest.foldl (processRelEntry hook elf env offsets index)
        (processRelEntry hook elf env offsets index st rel)) := by
  refine ⟨?_, ?_, fun rest => rfl⟩
  · rw [processRelEntry, if_pos h]
  · rw [processRelEntry, if_pos h]

/-- C7 (witness): a concrete relocation entry with r_info below 0x100, so
symbol number 0, on a four-byte buffer. -/
theorem c7_witness :
    (processRelEntry idHook exElfEmpty (fun _ => none) [] 1
        { data := [1, 2, 3, 4], msgs := [], error := false }
        { r_offset := 0, r_info := 2 }).msgs
      = [(Level.warningLv, ErrMsg.invalidSymbolNum 0)] ∧
    (processRelEntry idHook exElfEmpty (fun _ => none) [] 1
        { data := [1, 2, 3, 4], msgs := [], error := false }
        { r_offset := 0, r_info := 2 }).data = [1, 2, 3, 4] := by
  have h := c7_invalid_symbol_num idHook exElfEmpty (fun _ => none) [] 1
    { data := [1, 2, 3, 4], msgs := [], error := false }
    { r_offset := 0, r_info := 2 } (by decide)
  rw [h.1]
  exact ⟨rfl, rfl⟩

/-- C8: symbol-name lowercasing is an ASCII-only byte fold: the wide
string has one character per input byte, bytes 65..90 (A..Z) come out
shifted to 97..122 (a..z), and every byte outside that range, in
particular every non-ASCII byte of value at least 0x80, passes through
unchanged into the wide string. -/
theorem c8_lowercase_fold (str : List Nat) :
    (toWLowercase str).length = str.length ∧
    (∀ i, i < str.length → 65 ≤ str.getD i 0 → str.getD i 0 ≤ 90 →
      (toWLowercase str).getD i 0 = str.getD i 0 + 32) ∧
    (∀ i, i < str.length → 128 ≤ str.getD i 0 →
      (toWLowercase str).getD i 0 = str.getD i 0) := by
  refine ⟨List.length_map _ _, ?_, ?_⟩
  · intro i hi h65 h90
    rw [toWLowercase, List.getD_eq_getElem _ _ (by simpa using hi),
      List.getD_eq_getElem _ _ hi, List.getElem_map, c_tolower,
      if_pos ⟨by rw [← List.getD_eq_getElem _ 0 hi]; exact h65,
              by rw [← List.getD_eq_getElem _ 0 hi]; exact h90⟩]
  · intro i hi h128
    rw [toWLowercase, List.getD_eq_getElem _ _ (by simpa using hi),
      List.getD_eq_getElem _ _ hi, List.getElem_map, c_tolower, if_neg]
    have hg : str[i] = str.getD i 0 := (List.getD_eq_getElem str 0 hi).symm
    rw [hg]
    omega

/-- C8 (witness): the fold applied to the bytes A, Z, a, 0xC8: length
four, the letters move by 32, the non-ASCII byte passes through. -/
theorem c8_witness :
    (toWLowercase [65, 90, 97, 200]).length = 4 ∧
    (toWLowercase [65, 90, 97, 200]).getD 0 0 = 97 ∧
    (toWLowercase [65, 90, 97, 200]).getD 3 0 = 200 := by
  have h := c8_lowercase_fold [65, 90, 97, 200]
  refine ⟨h.1, ?_, ?_⟩
  · have h2 := h.2.1 0 (by decide) (by decide) (by decide)
    simpa using h2
  · have h3 := h.2.2 3 (by decide) (by decide)
    simpa using h3

/-- C9: relocateFile is total exactly under the precondition that every
loadable section has a nonzero alignment and every SHN_COMMON symbol a
nonzero relativeAddress; otherwise an align-up loop evaluates an integer
modulo with divisor zero, modelled as the none result. -/
theorem c9_relocateFile_totality (hook : Hook) (file : ElfRelocatorFile)
    (addr : Nat) (out : List Nat) (env : Env) (msgs : List (Level × ErrMsg)) (dc : Bool) :
    (relocateFile hook file addr out env msgs dc).isSome ↔
      ((∀ e ∈ file.sections, e.sec.alignment ≠ 0) ∧
       (∀ s ∈ file.symbols, s.sectionIndex = SHN_COMMON → s.relativeAddress ≠ 0)) :=
  relocateFile_isSome_iff hook file addr out env msgs dc

/-- C9 (witness): the totality criterion applied to a well-formed file
(nonzero alignments, so some result) and to a file with a zero-alignment
section (no result). -/
theorem c9_witness :
    (relocateFile idHook exFile3 16 [] (fun _ => none) [] false).isSome = true ∧
    (relocateFile idHook exFileBad 16 [] (fun _ => none) [] false).isSome = false := by
  constructor
  · apply (c9_relocateFile_totality idHook exFile3 16 [] (fun _ => none) [] false).mpr
    constructor
    · intro e he
      simp only [exFile3, List.mem_singleton] at he
      subst he
      decide
    · intro s hs
      simp only [exFile3, List.mem_singleton] at hs
      subst hs
      intro _
      decide
  · cases hb : (relocateFile idHook exFileBad 16 [] (fun _ => none) [] false).isSome with
    | false => rfl
    | true =>
        have hc := (c9_relocateFile_totality idHook exFileBad 16
          [] (fun _ => none) [] false).mp hb
        have h0 := hc.1 { sec := { sectionType := SHT_PROGBITS, alignment := 0, size := 1,
                                   data := [0] },
                          index := 0, relSection := none }
          (by simp [exFileBad])
        exact absurd rfl h0

/-- C10: for a relocation entry not treated as external whose symbol's
section index has no entry in the per-file offsets map, the map read
defaults to 0, so the relocation base passed to the architecture hook is
the translated symbolAddress alone, and when the hook succeeds no
diagnostic is queued for the entry. -/
theorem c10_missing_offset_defaults_zero (hook : Hook) (elf : ElfFile) (env : Env)
    (offsets : List (Nat × Nat)) (index : Nat) (st : RelState) (rel : Elf32_Rel)
    (hsym : ¬rel.getSymbolNum = 0)
    (hext : ¬((mkRelData hook elf offsets index st.data rel).targetSymbolType = STT_NOTYPE ∧
      (elf.getSymbol rel.getSymbolNum).st_shndx = 0))
    (hmiss : offsets.find?
      (fun p => p.1 = (elf.getSymbol rel.getSymbolNum).st_shndx) = none) :
    mapGet offsets (elf.getSymbol rel.getSymbolNum).st_shndx = 0 ∧
    processRelEntry hook elf env offsets index st rel =
      applyOpcode hook rel.getType
        { mkRelData hook elf offsets index st.data rel with
          relocationBase := (mkRelData hook elf offsets index st.data rel).symbolAddress }
        rel.r_offset st ∧
    (∀ rd2, hook.relocateOpcode rel.getType
        { mkRelData hook elf offsets index st.data rel with
          relocationBase := (mkRelData hook elf offsets index st.data rel).symbolAddress }
        = some rd2 →
      (processRelEntry hook elf env offsets index st rel).msgs = st.msgs ∧
      (processRelEntry hook elf env offsets index st rel).error = st.error) := by
  have hm : mapGet offsets (elf.getSymbol rel.getSymbolNum).st_shndx = 0 := by
    rw [mapGet, hmiss]
  have heq : processRelEntry hook elf env offsets index st rel =
      applyOpcode hook rel.getType
        { mkRelData hook elf offsets index st.data rel with
          relocationBase := (mkRelData hook elf offsets index st.data rel).symbolAddress }
        rel.r_offset st := by
    rw [processRelEntry, if_neg hsym, if_neg hext, hm, Nat.zero_add]
  refine ⟨hm, heq, ?_⟩
  intro rd2 hrd2
  rw [heq, applyOpcode, hrd2]
  exact ⟨rfl, rfl⟩

/-- C10 (witness): a FUNC symbol of section 5 with an empty offsets map:
the relocation base handed to the hook is the bare symbol value 0x44, the
entry queues nothing and, with the identity hook, rewrites the opcode word
with its own value. -/
theorem c10_witness :
    mapGet [] (exElfLocal.getSymbol 1).st_shndx = 0 ∧
    ({ mkRelData idHook exElfLocal [] 0 [5, 6, 7, 8] { r_offset := 0, r_info := 0x100 } with
       relocationBase := (mkRelData idHook exElfLocal [] 0 [5, 6, 7, 8]
         { r_offset := 0, r_info := 0x100 }).symbolAddress }).relocationBase = 0x44 ∧
    (processRelEntry idHook exElfLocal (fun _ => none) [] 0
        { data := [5, 6, 7, 8], msgs := [], error := false }
        { r_offset := 0, r_info := 0x100 }).msgs = [] ∧
    (processRelEntry idHook exElfLocal (fun _ => none) [] 0
        { data := [5, 6, 7, 8], msgs := [], error := false }
        { r_offset := 0, r_info := 0x100 }).data = [5, 6, 7, 8] := by
  have h := c10_missing_offset_defaults_zero idHook exElfLocal (fun _ => none) [] 0
    { data := [5, 6, 7, 8], msgs := [], error := false } { r_offset := 0, r_info := 0x100 }
    (by decide) (by decide) rfl
  refine ⟨h.1, by decide, ?_, ?_⟩
  · exact (h.2.2 _ rfl).1
  · rw [h.2.1]
    decide

/-- C4: for a relocation entry whose translated symbol type is NOTYPE with
section index 0, the entry resolves through the shared symbol table: a
missing label queues "Invalid external symbol", a present but undefined
label queues "Undefined external symbol" (both leaving the opcode word
unpatched and raising the error flag), a defined label supplies its value
as the relocation base; the loop still processes the remaining entries,
and a file containing such a failing entry makes relocateFile return
failure. -/
theorem c4_external_resolution (hook : Hook) (elf : ElfFile) (env : Env)
    (offsets : List (Nat × Nat)) (index : Nat) (st : RelState) (rel : Elf32_Rel)
    (hsym : ¬rel.getSymbolNum = 0)
    (hty : (mkRelData hook elf offsets index st.data rel).targetSymbolType = STT_NOTYPE)
    (hsh : (elf.getSymbol rel.getSymbolNum).st_shndx = 0) :
    (env (toWLowercase (elf.strTab (elf.getSymbol rel.getSymbolNum).st_name)) = none →
      processRelEntry hook elf env offsets index st rel =
        { st with
          msgs := st.msgs ++ [(Level.errorLv, ErrMsg.invalidExternalSymbol
            (toWLowercase (elf.strTab (elf.getSymbol rel.getSymbolNum).st_name)))],
          error := true }) ∧
    (∀ l, env (toWLowercase (elf.strTab (elf.getSymbol rel.getSymbolNum).st_name)) = some l →
      l.defined = false →
      processRelEntry hook elf env offsets index st rel =
        { st with
          msgs := st.msgs ++ [(Level.errorLv, ErrMsg.undefinedExternalSymbol
            (toWLowercase (elf.strTab (elf.getSymbol rel.getSymbolNum).st_name)))],
          error := true }) ∧
    (∀ l, env (toWLowercase (elf.strTab (elf.getSymbol rel.getSymbolNum).st_name)) = some l →
      l.defined = true →
      processRelEntry hook elf env offsets index st rel =
        applyOpcode hook rel.getType
          { mkRelData hook elf offsets index st.data rel with
            relocationBase := l.value,
            targetSymbolType := if l.isData then STT_OBJECT else STT_FUNC,
            targetSymbolInfo := l.info }
          rel.r_offset st) ∧
    (∀ rest st0, (rel :: rest).foldl (processRelEntry hook elf env offsets index) st0 =
      rest.foldl (processRelEntry hook elf env offsets index)
        (processRelEntry hook elf env offsets index st0 rel)) ∧
    (∀ (file : ElfRelocatorFile) (entry : ElfRelocatorSection) (rels : List Elf32_Rel)
        (addr : Nat) (out : List Nat) (msgs : List (Level × ErrMsg)) (dc : Bool)
        (r : FileResult),
      file.elf = elf →
      entry ∈ file.sections → entry.sec.sectionType ≠ SHT_NOBITS →
      entry.relSection = some rels → rel ∈ rels →
      (∀ offs d, (mkRelData hook elf offs entry.index d rel).targetSymbolType = STT_NOTYPE) →
      (∀ l, env (toWLowercase (elf.strTab (elf.getSymbol rel.getSymbolNum).st_name)) = some l →
        l.defined = false) →
      relocateFile hook file addr out env msgs dc = some r →
      r.success = false) := by
  refine ⟨?_, ?_, ?_, fun rest st0 => rfl, ?_⟩
  · intro henv
    rw [processRelEntry, if_neg hsym, if_pos ⟨hty, hsh⟩]
    dsimp only
    rw [henv]
  · intro l hl hdef
    rw [processRelEntry, if_neg hsym, if_pos ⟨hty, hsh⟩]
    dsimp only
    rw [hl]
    dsimp only
    rw [if_pos hdef]
  · intro l hl hdef
    rw [processRelEntry, if_neg hsym, if_pos ⟨hty, hsh⟩]
    dsimp only
    rw [hl]
    dsimp only
    rw [if_neg (by rw [hdef]; exact fun hf => Bool.noConfusion hf)]
  · intro file entry rels addr out msgs dc r helf hmem hn hrels hrel hty2 hundef h
    subst helf
    apply relocateFile_success_false hook file addr out env msgs dc r h entry rels rel
      hmem hn hrels hrel
    intro offs st2
    rw [processRelEntry, if_neg hsym, if_pos ⟨hty2 offs st2.data, hsh⟩]
    dsimp only
    cases henv : env (toWLowercase
        (file.elf.strTab (file.elf.getSymbol rel.getSymbolNum).st_name)) with
    | none => rfl
    | some l =>
        dsimp only
        rw [if_pos (hundef l henv)]

/-- C4 (witness): the external-resolution cases at a concrete entry whose
symbol is the NOTYPE external ext: with a symbol table defining ext the
entry succeeds quietly (relocation base 0x2000); the hypotheses of the
claim theorem hold by computation. -/
theorem c4_witness :
    (processRelEntry idHook exElfExt exEnvExt [] 0
        { data := [17, 34, 51, 68], msgs := [], error := false }
        { r_offset := 0, r_info := 0x100 }).error = false ∧
    (processRelEntry idHook exElfExt exEnvExt [] 0
        { data := [17, 34, 51, 68], msgs := [], error := false }
        { r_offset := 0, r_info := 0x100 }).msgs = [] ∧
    (processRelEntry idHook exElfExt (fun _ => none) [] 0
        { data := [17, 34, 51, 68], msgs := [], error := false }
        { r_offset := 0, r_info := 0x100 }).msgs
      = [(Level.errorLv, ErrMsg.invalidExternalSymbol [101, 120, 116])] := by
  have h := c4_external_resolution idHook exElfExt exEnvExt [] 0
    { data := [17, 34, 51, 68], msgs := [], error := false }
    { r_offset := 0, r_info := 0x100 } (by decide) (by decide) (by decide)
  have h3 := h.2.2.1 { defined := true, value := 0x2000, isData := false, info := 3 } rfl rfl
  have h0 := c4_external_resolution idHook exElfExt (fun _ => none) [] 0
    { data := [17, 34, 51, 68], msgs := [], error := false }
    { r_offset := 0, r_info := 0x100 } (by decide) (by decide) (by decide)
  refine ⟨?_, ?_, ?_⟩
  · rw [h3]
    decide
  · rw [h3]
    decide
  · rw [h0.1 rfl]
    decide

/-- C3: after a relocate pass the caller's memoryAddress variable holds
the delta memoryAddress_final − memoryAddress_start consumed by the pass,
and outputData holds exactly that many bytes (sections are copied at their
placed positions, so the hypotheses ask each non-NOBITS section to carry
as many bytes as its header size and the section indices of a file to be
distinct). -/
theorem c3_relocate_delta (hook : Hook) (crc : List Nat → Nat)
    (files : List ElfRelocatorFile) (prev : List Nat) (env : Env) (a : Nat)
    (r : RelocateResult)
    (hdata : ∀ f ∈ files, ∀ e ∈ f.sections, e.sec.sectionType ≠ SHT_NOBITS →
      e.sec.data.length = e.sec.size)
    (hnodup : ∀ f ∈ files, (f.sections.map (fun e => e.index)).Nodup)
    (h : relocate hook crc files prev env a = some r) :
    (∃ res, relocateFiles hook files a [] env [] false false = some res ∧
      a ≤ res.addr ∧ r.memoryAddress = res.addr - a) ∧
    r.outputData.length = r.memoryAddress := by
  rw [relocate] at h
  cases hres : relocateFiles hook files a [] env [] false false with
  | none => rw [hres] at h; cases h
  | some res =>
      rw [hres] at h
      injection h with h
      subst h
      have hlen := relocateFiles_length hook files a [] env [] false false res hres
        hdata hnodup
      refine ⟨⟨res, rfl, hlen.1, rfl⟩, ?_⟩
      show res.outputData.length = res.addr - a
      simpa using hlen.2

/-- C3 (witness): a pass over one file (a two-byte section placed at an
aligned address plus a three-byte SHN_COMMON allocation) starting at
address 16. -/
theorem c3_witness :
    ∃ r, relocate idHook (fun l => l.length) [exFile3] [] (fun _ => none) 16 = some r ∧
      r.outputData.length = r.memoryAddress := by
  obtain ⟨r, hr⟩ :
      ∃ r, relocate idHook (fun l => l.length) [exFile3] [] (fun _ => none) 16 = some r :=
    ⟨_, rfl⟩
  refine ⟨r, hr, (c3_relocate_delta idHook (fun l => l.length) [exFile3] []
    (fun _ => none) 16 r ?_ ?_ hr).2⟩
  · intro f hf
    rw [List.mem_singleton] at hf
    subst hf
    intro e he hne
    simp only [exFile3, List.mem_singleton] at he
    subst he
    rfl
  · intro f hf
    rw [List.mem_singleton] at hf
    subst hf
    decide

/-- C6: once a relocate pass ends with dataChanged still false, one more
pass from the same starting address (against a symbol table that, as after
any pass, carries the stored relocated addresses of the labelled symbols
and is otherwise unchanged) reproduces the same outputData byte for byte,
leaves every label value unchanged, and keeps dataChanged false. -/
theorem c6_convergence_idempotent (hook : Hook) (crc : List Nat → Nat)
    (files : List ElfRelocatorFile) (prev : List Nat) (env : Env) (a : Nat)
    (r1 : RelocateResult)
    (hcons : ∀ f ∈ files, ∀ s ∈ f.symbols, s.hasLabel = true →
      ∃ l, env s.name = some l ∧ l.value = s.relocatedAddress)
    (h1 : relocate hook crc files prev env a = some r1)
    (hdc : r1.dataChanged = false) :
    ∃ r2, relocate hook crc r1.files r1.outputData r1.env a = some r2 ∧
      r2.outputData = r1.outputData ∧ r2.env = r1.env ∧
      r2.files = r1.files ∧ r2.dataChanged = false := by
  rw [relocate] at h1
  cases hres : relocateFiles hook files a [] env [] false false with
  | none => rw [hres] at h1; cases h1
  | some res =>
      rw [hres] at h1
      injection h1 with h1
      subst h1
      have hdc2 : res.dataChanged = false := by
        have hor : (res.dataChanged
            || decide (crc prev ≠ crc res.outputData)) = false := hdc
        cases hb : res.dataChanged with
        | false => rfl
        | true => rw [hb] at hor; cases hor
      have hfix := relocateFiles_fixed hook files a [] env [] false res hres hdc2 hcons
      refine ⟨{ files := res.files, memoryAddress := res.addr - a,
                outputData := res.outputData, env := res.env, msgs := res.msgs,
                dataChanged := false, success := !res.error },
              ?_, rfl, rfl, rfl, rfl⟩
      show relocate hook crc res.files res.outputData res.env a = some _
      rw [hfix.1, hfix.2, relocate, hres]
      simp [hdc2, hfix.1, hfix.2]

/-- C6 (witness): a file already at its fixed point (stored relocated
address 5 matching a pass from start address 5, label x = 5 in the table):
the first pass reports dataChanged false and the second pass reproduces
output, table and files. -/
theorem c6_witness :
    ∃ r1, relocate idHook (fun l => l.length) [exFileC6] [7, 9] exEnvC6 5 = some r1 ∧
      r1.dataChanged = false ∧
      ∃ r2, relocate idHook (fun l => l.length) r1.files r1.outputData r1.env 5 = some r2 ∧
        r2.outputData = r1.outputData ∧ r2.env = r1.env ∧
        r2.files = r1.files ∧ r2.dataChanged = false := by
  obtain ⟨r1, hr1⟩ :
      ∃ r1, relocate idHook (fun l => l.length) [exFileC6] [7, 9] exEnvC6 5 = some r1 :=
    ⟨_, rfl⟩
  have hdc : r1.dataChanged = false := by
    have hmap : (relocate idHook (fun l => l.length) [exFileC6] [7, 9] exEnvC6 5).map
        RelocateResult.dataChanged = some false := rfl
    rw [hr1] at hmap
    injection hmap
  refine ⟨r1, hr1, hdc, ?_⟩
  apply c6_convergence_idempotent idHook (fun l => l.length) [exFileC6] [7, 9] exEnvC6 5 r1
    ?_ hr1 hdc
  intro f hf
  rw [List.mem_singleton] at hf
  subst hf
  intro s hs hlab
  simp only [exFileC6, List.mem_singleton] at hs
  subst hs
  exact ⟨{ defined := true, value := 5, isData := true, info := 0 }, rfl, rfl⟩

end Armips
